import Mathlib

/-!
Verification development for the Interview-Coach LLM orchestration core
(`src/core/llm.py`) and the document extractor (`src/utils/file_parser.py`).

The Python source is shallowly embedded:
* Python `str` is Lean `String`; character-level algorithms work on `.data`
  (`List Char`).  Python slicing `s[:n]` is `pyTake`, `s[-n:]` is `pyTakeLast`.
* `json.loads` (a library function, not repository code) is modelled by a
  recursive-descent parser `parseVal` over a JSON value type `JVal`; the
  model is lenient in places where strictness does not matter for the
  properties at stake (number lexemes are kept as raw text, any character may
  be backslash-escaped inside strings).  JSON objects are insertion-ordered
  association lists, as Python dicts are.
* Network calls (`call_llm`) are modelled by an oracle
  `Nat → String → String → Rat → Nat → Except ε String` mapping
  (attempt index, prompt, system prompt, temperature, max_tokens) to a
  response or a raised error; the attempt index models the changing backend
  state across retry attempts.  `_ollama_warmup` is a fire-and-forget side
  effect whose failures are swallowed, so it is modelled as a no-op.
* A Python function that can raise returns `Option`/`Except`; `none`/`.error`
  is an escaped exception.
-/

/-! ### Characters and small Python-string helpers -/

/-- `"` -/
def qt : Char := Char.ofNat 34

/-- `\` -/
def bslash : Char := Char.ofNat 92

/-- Left brace. -/
def lbr : Char := Char.ofNat 123

/-- Right brace. -/
def rbr : Char := Char.ofNat 125

/-- Left square bracket. -/
def lbk : Char := Char.ofNat 91

/-- Right square bracket. -/
def rbk : Char := Char.ofNat 93

/-- `:` -/
def colonCh : Char := Char.ofNat 58

/-- `,` -/
def commaCh : Char := Char.ofNat 44

/-- Backtick. -/
def btick : Char := Char.ofNat 96

/-- `'` -/
def aposCh : Char := Char.ofNat 39

/-- Python `s[:n]` (character count slicing, as Python slices by code point). -/
def pyTake (s : String) (n : Nat) : String := String.mk (s.data.take n)

/-- Python `s[-n:]` for `0 < n ≤ len(s)` (the only way it is used here). -/
def pyTakeLast (s : String) (n : Nat) : String :=
  String.mk (s.data.drop (s.data.length - n))

/-- Python `len(s)`. -/
def pyLen (s : String) : Nat := s.data.length

/-- Python `s.lower()` (ASCII model of `str.lower`). -/
def pyLower (s : String) : String := String.mk (s.data.map Char.toLower)

/-- Python `s.upper()` (ASCII model of `str.upper`). -/
def pyUpper (s : String) : String := String.mk (s.data.map Char.toUpper)

/-- Python `s.rstrip()` on character lists. -/
def rstripL (cs : List Char) : List Char :=
  (cs.reverse.dropWhile Char.isWhitespace).reverse

/-- Python `s.strip()` on character lists. -/
def stripL (cs : List Char) : List Char :=
  rstripL (cs.dropWhile Char.isWhitespace)

/-- Python `s.strip()` on strings. -/
def pyStrip (s : String) : String := String.mk (stripL s.data)

/-- Python `needle in hay` / `hay.find(needle)`: index of the first position
where `needle` occurs in `hay`. -/
def findSub (needle : List Char) : List Char → Option Nat
  | [] => if needle = [] then some 0 else none
  | c :: rest =>
    if needle.isPrefixOf (c :: rest) then some 0
    else (findSub needle rest).map (· + 1)

/-! ### JSON values (model of the Python objects `json.loads` produces) -/

/-- The JSON values `json.loads` can return.  Numbers are kept as their
source lexeme; objects are insertion-ordered association lists (Python
dicts preserve insertion order). -/
inductive JVal where
  | jnull : JVal
  | jbool : Bool → JVal
  | jnum : String → JVal
  | jstr : String → JVal
  | jarr : List JVal → JVal
  | jobj : List (String × JVal) → JVal

/-- Dict lookup (`d.get(k)` / `d[k]`). -/
def jLookup (kvs : List (String × JVal)) (k : String) : Option JVal :=
  match kvs with
  | [] => none
  | (k', v) :: rest => if k' = k then some v else jLookup rest k

/-- Python `k in d`. -/
def jHasKey (kvs : List (String × JVal)) (k : String) : Bool :=
  (jLookup kvs k).isSome

/-- Python dict assignment `d[k] = v`: replaces in place when the key exists
(keeping its position), appends otherwise. -/
def jSet (kvs : List (String × JVal)) (k : String) (v : JVal) :
    List (String × JVal) :=
  if jHasKey kvs k then
    kvs.map (fun kv => if kv.1 = k then (kv.1, v) else kv)
  else kvs ++ [(k, v)]

/-- Python `d.pop(k, default)`'s removal effect. -/
def jRemove (kvs : List (String × JVal)) (k : String) : List (String × JVal) :=
  kvs.filter (fun kv => kv.1 ≠ k)

/-- Python `d.setdefault(k, v)`'s mutation effect. -/
def jSetdefault (kvs : List (String × JVal)) (k : String) (v : JVal) :
    List (String × JVal) :=
  if jHasKey kvs k then kvs else jSet kvs k v

/-- Python truthiness of a JSON number lexeme: a JSON number is falsy iff
its mantissa (the part before any exponent) contains no nonzero digit. -/
def numTruthy (s : String) : Bool :=
  (s.data.takeWhile (fun c => c ≠ 'e' ∧ c ≠ 'E')).any
    (fun c => '1' ≤ c ∧ c ≤ '9')

/-- Python truthiness of a parsed JSON value. -/
def jTruthy : JVal → Bool
  | .jnull => false
  | .jbool b => b
  | .jnum s => numTruthy s
  | .jstr s => s ≠ ""
  | .jarr xs => !xs.isEmpty
  | .jobj kvs => !kvs.isEmpty

/-! ### The `json.loads` model: a fuel-indexed recursive-descent parser -/

/-- Characters allowed in a (leniently modelled) number lexeme. -/
def numChar (c : Char) : Bool :=
  c.isDigit ∨ c = '-' ∨ c = '+' ∨ c = '.' ∨ c = 'e' ∨ c = 'E'

/-- Parse the body of a string literal after the opening quote; returns the
raw body characters (escape sequences intact) and the input after the
closing quote. -/
def parseStrBody : List Char → Option (List Char × List Char)
  | [] => none
  | c :: [] => if c = qt then some ([], []) else none
  | c :: d :: cs' =>
    if c = qt then some ([], d :: cs')
    else if c = bslash then
      (parseStrBody cs').map (fun br => (bslash :: d :: br.1, br.2))
    else (parseStrBody (d :: cs')).map (fun br => (c :: br.1, br.2))

/-- Parse a number lexeme (lenient: the maximal run of number characters). -/
def parseNum (cs : List Char) : Option (List Char × List Char) :=
  let lex := cs.takeWhile numChar
  if lex.isEmpty then none else some (lex, cs.dropWhile numChar)

/-- Expect a literal character sequence. -/
def expectLit (lit : List Char) (cs : List Char) : Option (List Char) :=
  if cs.take lit.length = lit then some (cs.drop lit.length) else none

/-- JSON whitespace skipping. -/
def skipWs (cs : List Char) : List Char := cs.dropWhile Char.isWhitespace

mutual

/-- Parse one JSON value starting at a non-whitespace character. -/
def parseVal : Nat → List Char → Option (JVal × List Char)
  | 0, _ => none
  | _ + 1, [] => none
  | f + 1, c :: cs' =>
    if c = qt then
      (parseStrBody cs').map (fun br => (.jstr (String.mk br.1), br.2))
    else if c = lbr then parseObjRest f (skipWs cs')
    else if c = lbk then parseArrRest f (skipWs cs')
    else if c = 'n' then
      (expectLit ['u', 'l', 'l'] cs').map (fun r => (.jnull, r))
    else if c = 't' then
      (expectLit ['r', 'u', 'e'] cs').map (fun r => (.jbool true, r))
    else if c = 'f' then
      (expectLit ['a', 'l', 's', 'e'] cs').map (fun r => (.jbool false, r))
    else if numChar c then
      (parseNum (c :: cs')).map (fun lr => (.jnum (String.mk lr.1), lr.2))
    else none

/-- Parse the rest of an object after `{` and following whitespace. -/
def parseObjRest : Nat → List Char → Option (JVal × List Char)
  | 0, _ => none
  | _ + 1, [] => none
  | f + 1, c :: cs' =>
    if c = rbr then some (.jobj [], cs')
    else parseObjItems f [] (c :: cs')

/-- Parse object members starting at a key's opening quote.  Members are
accumulated with `jSet`, matching how `json.loads` builds a Python dict
(later duplicate keys overwrite earlier ones in place). -/
def parseObjItems :
    Nat → List (String × JVal) → List Char → Option (JVal × List Char)
  | 0, _, _ => none
  | _ + 1, _, [] => none
  | f + 1, acc, c :: cs' =>
    if c = qt then
      match parseStrBody cs' with
      | none => none
      | some (k, r1) =>
        match skipWs r1 with
        | [] => none
        | c2 :: r3 =>
          if c2 = colonCh then
            match parseVal f (skipWs r3) with
            | none => none
            | some (v, r4) =>
              match skipWs r4 with
              | [] => none
              | c3 :: r6 =>
                if c3 = commaCh then
                  parseObjItems f (jSet acc (String.mk k) v) (skipWs r6)
                else if c3 = rbr then
                  some (.jobj (jSet acc (String.mk k) v), r6)
                else none
          else none
    else none

/-- Parse the rest of an array after `[` and following whitespace. -/
def parseArrRest : Nat → List Char → Option (JVal × List Char)
  | 0, _ => none
  | _ + 1, [] => none
  | f + 1, c :: cs' =>
    if c = rbk then some (.jarr [], cs')
    else parseArrItems f [] (c :: cs')

/-- Parse array elements starting at an element's first character. -/
def parseArrItems : Nat → List JVal → List Char → Option (JVal × List Char)
  | 0, _, _ => none
  | f + 1, acc, cs =>
    match parseVal f cs with
    | none => none
    | some (v, r1) =>
      match skipWs r1 with
      | [] => none
      | c :: r3 =>
        if c = commaCh then parseArrItems f (acc ++ [v]) (skipWs r3)
        else if c = rbk then some (.jarr (acc ++ [v]), r3)
        else none

end

/-- Fuel that always suffices for `parseVal` on `cs`. -/
def parseFuel (cs : List Char) : Nat := 3 * cs.length + 8

/-- Model of `json.loads`: leading/trailing whitespace allowed, otherwise the
whole input must be one JSON value. -/
def loadsL (cs : List Char) : Option JVal :=
  match parseVal (parseFuel cs) (skipWs cs) with
  | some (v, rest) => if skipWs rest = [] then some v else none
  | none => none

/-- `parseExact cs = some v` when `cs` is exactly one JSON value with no
surrounding whitespace. -/
def parseExact (cs : List Char) : Option JVal :=
  match parseVal (parseFuel cs) cs with
  | some (v, []) => some v
  | _ => none

/-! ### The `_ej` bracket scanner (`src/core/llm.py` lines 79-90) -/

/-- Scanner state of the `_ej` loop: nesting depth (Python int — it can go
negative), string-literal state and escape state. -/
structure EjSt where
  depth : Int
  inStr : Bool
  esc : Bool

/-- One step of the `_ej` scanning loop for bracket pair `(oc, cc)`;
the Bool is whether this character makes the loop break (depth returned
to zero on a closing bracket). -/
def ejProc (oc cc : Char) (st : EjSt) (ch : Char) : EjSt × Bool :=
  if st.esc then ({ st with esc := false }, false)
  else if ch = bslash ∧ st.inStr then ({ st with esc := true }, false)
  else if ch = qt then ({ st with inStr := !st.inStr }, false)
  else if st.inStr then (st, false)
  else if ch = oc then ({ st with depth := st.depth + 1 }, false)
  else if ch = cc then
    ({ st with depth := st.depth - 1 }, st.depth - 1 = 0)
  else (st, false)

/-- Index (relative to the scan start) of the character on which the `_ej`
loop breaks, if any. -/
def brkIdx (oc cc : Char) (st : EjSt) : List Char → Option Nat
  | [] => none
  | ch :: rest =>
    let p := ejProc oc cc st ch
    if p.2 then some 0 else (brkIdx oc cc p.1 rest).map (· + 1)

/-- The scanner state after processing a character list (ignoring breaks). -/
def foldSt (oc cc : Char) (st : EjSt) (cs : List Char) : EjSt :=
  cs.foldl (fun s c => (ejProc oc cc s c).1) st

/-! ### `_repair_json` (`src/core/llm.py` lines 96-112) -/

/-- Scanner state of `_repair_json`: string state, escape state and the two
net bracket depths.  Note that, unlike the `_ej` scanner, a backslash sets
the escape flag even outside a string literal. -/
structure RepSt where
  inStr : Bool
  esc : Bool
  dBrace : Int
  dBracket : Int

/-- One step of the `_repair_json` scan. -/
def repProc (st : RepSt) (ch : Char) : RepSt :=
  if st.esc then { st with esc := false }
  else if ch = bslash then { st with esc := true }
  else if ch = qt then { st with inStr := !st.inStr }
  else if st.inStr then st
  else if ch = lbr then { st with dBrace := st.dBrace + 1 }
  else if ch = rbr then { st with dBrace := st.dBrace - 1 }
  else if ch = lbk then { st with dBracket := st.dBracket + 1 }
  else if ch = rbk then { st with dBracket := st.dBracket - 1 }
  else st

/-- The `_repair_json` scan over a character list. -/
def repFold (st : RepSt) (cs : List Char) : RepSt := cs.foldl repProc st

/-- `_repair_json`: close a dangling string, strip one trailing comma
(after rstrip), then append the net-open `]`s and `}`s. -/
def repairL (s : List Char) : List Char :=
  let st := repFold ⟨false, false, 0, 0⟩ s
  let s1 := if st.inStr then s ++ [qt] else s
  let s2 := rstripL s1
  let s3 := if s2.getLast? = some commaCh then s2.dropLast else s2
  s3 ++ List.replicate (max 0 st.dBracket).toNat rbk
     ++ List.replicate (max 0 st.dBrace).toNat rbr

/-! ### `_ej` (`src/core/llm.py` lines 64-93) -/

/-- The smart-quote normalisation (`text.replace` of the four Unicode quote
characters, a character-to-character map). -/
def fixQuote (c : Char) : Char :=
  if c = Char.ofNat 0x201C then qt
  else if c = Char.ofNat 0x201D then qt
  else if c = Char.ofNat 0x2018 then aposCh
  else if c = Char.ofNat 0x2019 then aposCh
  else c

/-- The triple backtick. -/
def bt3 : List Char := [btick, btick, btick]

/-- Model of ``re.search(r"```(?:json)?\s*([\s\S]*?)```", text)`` followed by
`.group(1).strip()`: take the content between the first fence opener
(optionally tagged `json`) and the next fence, stripped; if no complete
fence exists, the text is unchanged. -/
def fenceExtract (cs : List Char) : List Char :=
  match findSub bt3 cs with
  | none => cs
  | some p =>
    let r := cs.drop (p + 3)
    let r2 := if ['j', 's', 'o', 'n'].isPrefixOf r then r.drop 4 else r
    match findSub bt3 r2 with
    | none => cs
    | some q => stripL (r2.take q)

/-- `json.loads` with the `_repair_json` fallback: the body of the
`try/except` pairs in `_ej`. -/
def loadsOrRepair (c : List Char) : Option JVal :=
  (loadsL c).orElse (fun _ => loadsL (repairL c))

/-- The scan-and-parse step of `_ej` from the chosen start position. -/
def ejFrom (oc cc : Char) (tail : List Char) : Option JVal :=
  match brkIdx oc cc ⟨0, false, false⟩ tail with
  | some i => loadsOrRepair (tail.take (i + 1))
  | none => loadsOrRepair tail

/-- `_ej` (extract_json) on a character list.  `none` is a raised
`ValueError`/`JSONDecodeError`. -/
def ejCore (cs0 : List Char) : Option JVal :=
  if cs0.all Char.isWhitespace then none
  else
    let cs1 := cs0.map fixQuote
    let cs2 := fenceExtract cs1
    match findSub [lbr] cs2, findSub [lbk] cs2 with
    | none, none => none
    | some o, none => ejFrom lbr rbr (cs2.drop o)
    | none, some a => ejFrom lbk rbk (cs2.drop a)
    | some o, some a =>
      if o < a then ejFrom lbr rbr (cs2.drop o)
      else ejFrom lbk rbk (cs2.drop a)

/-- `_ej` on strings. -/
def ej (text : String) : Option JVal := ejCore text.data

/-! ### Context budgeter (`_trim`, `_ollama_trim`, `_brevity`) -/

/-- `_trim` (`llm.py` line 44-45). -/
def trimText (text : String) (limit : Nat) : String :=
  if pyLen text > limit then pyTake text limit ++ "\n[truncated]" else text

/-- The `_OLLAMA_CTX` per-task character limits (`llm.py` lines 35-41),
including the `.get(task, 400)` default. -/
def ollamaCtx (task : String) : Nat :=
  if task = "plan" then 1200
  else if task = "grade" then 400
  else if task = "tip" then 200
  else if task = "chat" then 400
  else if task = "report" then 400
  else 400

/-- The `_OLLAMA_TOKENS` per-task output budgets (`llm.py` lines 26-32). -/
def ollamaTokens (task : String) : Nat :=
  if task = "plan" then 800
  else if task = "grade" then 900
  else if task = "tip" then 280
  else if task = "chat" then 500
  else if task = "report" then 900
  else 0

/-- `_ollama_trim` (`llm.py` lines 48-55): head-tail trim. -/
def ollamaTrim (text : String) (task : String) : String :=
  if text.data.all Char.isWhitespace then ""
  else
    let limit := ollamaCtx task
    if pyLen text ≤ limit then text
    else pyTake text (limit / 2) ++ "\n[...]\n" ++ pyTakeLast text (limit / 2)

/-- `_brevity` (`llm.py` lines 58-60). -/
def brevity (provider : String) (words : Nat) : String :=
  if provider = "ollama" then
    "\nIMPORTANT: Keep every field under " ++ toString words ++
      " words. Be concise."
  else ""

/-! ### Retry controller (`_call_with_retry`, `llm.py` lines 115-132) -/

/-- The backend oracle modelling `call_llm`: from the attempt index (the
backend's state may differ between attempts), prompt, system prompt,
temperature and max_tokens to a response or a raised error. -/
def LlmCall (ε : Type) : Type :=
  Nat → String → String → Rat → Nat → Except ε String

/-- The error taxonomy raised by backends (spec section 7): the retry
controller treats them all through a bare `except Exception`. -/
inductive PyErr where
  | authErr : String → PyErr
  | connErr : String → PyErr
  | backendErr : String → PyErr

/-- The prompt used on attempt `k`: unchanged on attempt 1, with the
JSON-only instruction appended afterwards (the Python f-string renders
`{{` as a single brace). -/
def promptAt (p : String) (k : Nat) : String :=
  if k = 1 then p
  else
    p ++ "\n\n[Attempt " ++ toString k ++
      ": output ONLY valid JSON starting with \x7b or [. No other text.]"

/-- The temperature passed to the backend on attempt `k`:
`max(0.1, temperature - 0.05 * (attempt - 1))`. -/
def tempAt (t : Rat) (k : Nat) : Rat :=
  max (1 / 10) (t - (1 / 20) * ((k - 1 : Nat) : Rat))

/-- The attempt loop of `_call_with_retry`: `left` attempts remain and the
next one is attempt `k`; `last` is Python's `last_err` (initially `None`,
hence the `Option` in the error type — re-raising it with zero attempts
would be Python's `raise None` failure). -/
def callWithRetryGo {ε : Type} (call : LlmCall ε) (prompt sys : String)
    (t : Rat) (maxTok : Nat) : Nat → Nat → Option ε → Except (Option ε) String
  | 0, _, last => .error last
  | left + 1, k, _ =>
    match call k (promptAt prompt k) sys (tempAt t k) maxTok with
    | .ok s => .ok s
    | .error e => callWithRetryGo call prompt sys t maxTok left (k + 1) (some e)

/-- `_call_with_retry` (`llm.py` lines 115-132): up to `retries` attempts
(3 at every call site), each failure is caught by a bare `except Exception`
and retried with the stricter prompt and lower temperature; after
exhaustion the last error is re-raised. -/
def callWithRetry {ε : Type} (call : LlmCall ε) (prompt sys : String)
    (t : Rat) (maxTok : Nat) (retries : Nat) : Except (Option ε) String :=
  callWithRetryGo call prompt sys t maxTok retries 1 none

/-! ### Rubric selector (`_category_type`, `llm.py` lines 382-388) -/

/-- `_category_type`: "Opener" → opener, "Closing" → closing, everything
else → star. -/
def categoryType (category : String) : String :=
  let c := pyLower category
  if c = "opener" then "opener"
  else if c = "closing" then "closing"
  else "star"

/-! ### Grading prompt constants (`llm.py` lines 391-523) -/

/-- `_opener_rubric_scores`. -/
def openerRubricScores : String :=
  "  \"rubric_scores\": \x7b\n" ++
  "    \"narrative_arc\": <0-25 — clear past→present→future story>,\n" ++
  "    \"relevant_experience\": <0-25 — education and work experience match the role>,\n" ++
  "    \"motivation_fit\": <0-25 — genuine, specific reason for wanting THIS role>,\n" ++
  "    \"delivery_confidence\": <0-25 — concise, engaging, not too long or too short>\n" ++
  "  \x7d,\n" ++
  "  \"rubric_labels\": [\"Narrative Arc\",\"Relevant Experience\",\"Motivation & Fit\",\"Delivery & Confidence\"],\n"

/-- `_closing_rubric_scores`. -/
def closingRubricScores : String :=
  "  \"rubric_scores\": \x7b\n" ++
  "    \"role_relevance\": <0-25 — question shows real understanding of the role>,\n" ++
  "    \"company_research\": <0-25 — shows candidate researched the company or team>,\n" ++
  "    \"strategic_thinking\": <0-25 — question reveals forward-thinking or growth mindset>,\n" ++
  "    \"interview_intelligence\": <0-25 — not a basic/googelable question; shows exec presence>\n" ++
  "  \x7d,\n" ++
  "  \"rubric_labels\": [\"Role Relevance\",\"Company Research\",\"Strategic Thinking\",\"Interview Intelligence\"],\n"

/-- `_star_rubric_scores`. -/
def starRubricScores : String :=
  "  \"rubric_scores\": \x7b\n" ++
  "    \"situation\": <0-25 — context was clear and relevant>,\n" ++
  "    \"task\": <0-25 — your specific role/responsibility was defined>,\n" ++
  "    \"action\": <0-25 — concrete steps YOU took, not the team>,\n" ++
  "    \"result\": <0-25 — quantified or observable outcome stated>\n" ++
  "  \x7d,\n" ++
  "  \"rubric_labels\": [\"Situation\",\"Task\",\"Action\",\"Result\"],\n"

/-- `_opener_system`. -/
def openerSystem : String :=
  "You are Alex, a senior HR director and interview coach with 15+ years placing " ++
  "candidates at top companies. When evaluating a \x27Tell me about yourself\x27 answer, " ++
  "you assess four things like an experienced recruiter would: \n" ++
  "1. NARRATIVE ARC — Does it flow naturally from background → experience → now → why here? " ++
  "Is it a compelling 60-90 second story, not a CV recitation?\n" ++
  "2. RELEVANT EXPERIENCE — Does the candidate connect their education and work history " ++
  "to what this role needs? Do they pick the right highlights?\n" ++
  "3. MOTIVATION & FIT — Is the reason for wanting THIS role genuine and specific? " ++
  "\x27I love data\x27 is weak. \x27This role sits at the intersection of analytics and product " ++
  "decisions, which is where I\x27ve done my best work\x27 is strong.\n" ++
  "4. DELIVERY & CONFIDENCE — Is it concise? Does it land with energy? " ++
  "Does it make the interviewer want to hear more?\n\n" ++
  "When you write the model_answer, write it as a warm, confident first-person pitch " ++
  "that flows naturally — not a script, not bullet points. " ++
  "Return ONLY valid JSON. No markdown. No extra text."

/-- `_closing_system`. -/
def closingSystem : String :=
  "You are Alex, a senior hiring manager and interview coach. When evaluating " ++
  "\x27Do you have any questions for me?\x27, you assess like an experienced interviewer would.\n\n" ++
  "WHAT GREAT LOOKS LIKE:\n" ++
  "- 2-3 thoughtful, specific questions that show the candidate has done their homework\n" ++
  "- Questions about the role\x27s real challenges, team dynamics, success metrics, or strategic direction\n" ++
  "- NOT: salary, holiday, hours (too early), or basic facts findable on Google\n" ++
  "- The best candidates use this as a conversation — they reference something from the interview\n\n" ++
  "WHAT WEAK LOOKS LIKE:\n" ++
  "- \x27I think you\x27ve covered everything\x27 — instant red flag\n" ++
  "- Generic questions like \x27What does a typical day look like?\x27 with no follow-through\n" ++
  "- Questions that make the interviewer feel interrogated rather than engaged\n\n" ++
  "When you write the model_answer, write 2-3 specific, intelligent questions " ++
  "the candidate would actually ask, with a brief setup for each that shows context. " ++
  "Return ONLY valid JSON. No markdown. No extra text."

/-- `_star_system`. -/
def starSystem : String :=
  "You are Alex, a senior interview coach and technical hiring manager with 15 years " ++
  "placing candidates at top companies. You know exactly what separates a 100-point " ++
  "answer from a 60-point one. You are warm, direct, and always specific — never generic.\n\n" ++
  "When you write a model_answer, you write it as if YOU are the candidate — " ++
  "speaking naturally in the first person, the way a confident person actually talks " ++
  "in an interview room. The model_answer must:\n" ++
  "- Be first person (I, me, my) — conversational, not labelled\n" ++
  "- Follow STAR naturally without announcing the sections\n" ++
  "- Include a specific, believable scenario with real-feeling context\n" ++
  "- Name concrete actions, tools, decisions, or methods\n" ++
  "- End with a quantified or observable result\n" ++
  "- Be 5-8 sentences — complete but not rehearsed-sounding\n" ++
  "- Use the candidate\x27s resume background to personalise it\n\n" ++
  "Return ONLY valid JSON. No markdown. No extra text."

/-- `_opener_prompt_fields`. -/
def openerPromptFields : String :=
  "  \"model_answer\": \"<Write a compelling, natural first-person \x27tell me about yourself\x27 pitch. " ++
  "It should flow: brief origin/education → key experience highlights relevant to the role → " ++
  "what you are doing now or most recently → a specific genuine reason for wanting THIS role. " ++
  "60-90 seconds when spoken aloud. Warm, confident, not a CV recitation. " ++
  "Use the candidate\x27s background to make it real. No bullet points.>\",\n" ++
  "  \"model_answer_breakdown\": \"<3-4 sentences explaining exactly why this pitch would land well. " ++
  "What narrative choices were made? Why does the motivation statement work? " ++
  "What does the interviewer feel after hearing it? Teach the structure.>\",\n"

/-- `_closing_prompt_fields`. -/
def closingPromptFields : String :=
  "  \"model_answer\": \"<Write 2-3 specific, intelligent questions the candidate should ask, " ++
  "each with a 1-sentence setup showing context. Make them feel genuinely curious and prepared — " ++
  "not just ticking a box. Vary them: one about the role challenges, one about team/culture, " ++
  "one about success metrics or strategy. Write them as the candidate would say them out loud.>\",\n" ++
  "  \"model_answer_breakdown\": \"<3-4 sentences explaining why these questions create a strong " ++
  "final impression. What do they signal to the interviewer? Why are specificity and research " ++
  "visible in them? What would a weak version of these questions look like?  Teach the pattern.>\",\n"

/-- `_star_prompt_fields`. -/
def starPromptFields : String :=
  "  \"model_answer\": \"<Write the complete answer as if you ARE the candidate speaking " ++
  "right now. First person. Conversational STAR flow without labels. Set the scene briefly, " ++
  "clarify your specific role, walk through concrete actions (tools, decisions, people), " ++
  "then land on a quantified or observable result. 5-8 sentences. " ++
  "Use the candidate\x27s resume background to personalise it. Real and articulate, not a template.>\",\n" ++
  "  \"model_answer_breakdown\": \"<3-4 sentences: what STAR elements does this hit? " ++
  "Why does the specificity matter to the interviewer? What does this answer signal " ++
  "about competence? Teach the pattern so they can apply it to any question.>\",\n"

/-- The (system prompt, rubric fields, model-answer fields, coach persona)
selected by `grade_answer` for a category type (`llm.py` lines 556-570). -/
def gradePieces (ctype : String) : String × String × String × String :=
  if ctype = "opener" then
    (openerSystem, openerRubricScores, openerPromptFields,
     "experienced HR recruiter who has heard thousands of these pitches")
  else if ctype = "closing" then
    (closingSystem, closingRubricScores, closingPromptFields,
     "senior hiring manager who judges candidates on the quality of their questions")
  else
    (starSystem, starRubricScores, starPromptFields,
     "technical interview coach who has coached candidates into top companies")

/-- The grading prompt (`llm.py` lines 572-602).  Note the answer is cut to
its first 1200 characters (`user_answer[:1200]`), and the resume/job blocks
are included only when their trimmed context is non-empty. -/
def gradePrompt (coachPersona rubricJson answerFields question category
    userAnswer resumeCtx jdCtx : String) : String :=
  "Grade this interview answer as an " ++ coachPersona ++ ".\n\n" ++
  "Return ONLY this JSON (no markdown, no extra text):\n" ++
  "\x7b\n" ++
  "  \"score\": <integer 0-100>,\n" ++
  "  \"grade\": \"<A|B|C|D|F>\",\n" ++
  rubricJson ++
  "  \"what_worked\": [\n" ++
  "    \"<specific strength referencing the candidate\x27s actual words — not generic praise>\",\n" ++
  "    \"<another specific strength>\"\n" ++
  "  ],\n" ++
  "  \"what_missed\": [\n" ++
  "    \"<specific gap or missed opportunity — concrete, not vague>\",\n" ++
  "    \"<another gap>\"\n" ++
  "  ],\n" ++
  "  \"coach_reaction\": \"<2-3 warm, human sentences reacting to THIS specific answer. " ++
  "Reference the candidate\x27s actual words. Acknowledge what landed. " ++
  "Point to the biggest lever for improvement. Sound like a real person who just listened carefully.>\",\n" ++
  answerFields ++
  "  \"follow_up_question\": \"<one natural follow-up the interviewer would ask next, " ++
  "based on what the model answer revealed>\",\n" ++
  "  \"encouragement\": \"<1-2 specific sentences: name something real from their answer " ++
  "that showed promise, then give one concrete thing to practise before the real interview.>\"\n" ++
  "\x7d\n\n" ++
  "QUESTION: " ++ question ++ "\n" ++
  "CATEGORY: " ++ category ++ "\n\n" ++
  "CANDIDATE ANSWER:\n" ++ pyTake userAnswer 1200 ++ "\n\n" ++
  (if resumeCtx ≠ "" then
    "CANDIDATE RESUME (use to personalise the model answer):\n" ++ resumeCtx ++ "\n\n"
   else "") ++
  (if jdCtx ≠ "" then "JOB CONTEXT:\n" ++ jdCtx ++ "\n\n" else "") ++
  "JSON only:"

/-! ### grade_answer normalisation (`llm.py` lines 610-646) -/

/-- The default used for a missing star dimension during migration
(the Python int `15`). -/
def j15 : JVal := .jnum "15"

/-- The default `rubric_scores` of the star branch. -/
def defaultStarScores : JVal :=
  .jobj [("situation", j15), ("task", j15), ("action", j15), ("result", j15)]

/-- The fallback `model_answer_breakdown` text. -/
def defaultBreakdown : String :=
  "A strong answer gives the interviewer something specific and memorable. " ++
  "Specificity builds confidence — vague answers create doubt."

/-- The `star_scores` compatibility object rebuilt from the rubric values in
order (`llm.py` lines 641-645): `situation`,`task`,`action`,`result` mapped
positionally, padding with 15. -/
def starCompat (kvs : List (String × JVal)) : JVal :=
  .jobj ((["situation", "task", "action", "result"].enum).map
    (fun ik => (ik.2, (kvs.map (·.2)).getD ik.1 j15)))

/-- The `rubric_labels` value that the migration step assigns for each
category type (the three fixed label lists of the spec). -/
def fixedLabels (ctype : String) : JVal :=
  if ctype = "opener" then
    .jarr [.jstr "Narrative Arc", .jstr "Relevant Experience",
           .jstr "Motivation & Fit", .jstr "Delivery & Confidence"]
  else if ctype = "closing" then
    .jarr [.jstr "Role Relevance", .jstr "Company Research",
           .jstr "Strategic Thinking", .jstr "Interview Intelligence"]
  else
    .jarr [.jstr "Situation", .jstr "Task", .jstr "Action", .jstr "Result"]

/-- The migration step of `grade_answer` when the parsed result lacks
`rubric_scores` (`llm.py` lines 611-632).  `none` is a raised exception
(`ss.get` on a non-dict). -/
def migrateRubric (ctype : String) (r0 : List (String × JVal)) :
    Option (List (String × JVal)) :=
  let ss := (jLookup r0 "star_scores").getD (.jobj [])
  let r := jRemove r0 "star_scores"
  if ctype = "opener" then
    match ss with
    | .jobj ssl =>
      some (jSet (jSet r "rubric_scores" (.jobj
        [("narrative_arc", (jLookup ssl "situation").getD j15),
         ("relevant_experience", (jLookup ssl "task").getD j15),
         ("motivation_fit", (jLookup ssl "action").getD j15),
         ("delivery_confidence", (jLookup ssl "result").getD j15)]))
        "rubric_labels"
        (.jarr [.jstr "Narrative Arc", .jstr "Relevant Experience",
                .jstr "Motivation & Fit", .jstr "Delivery & Confidence"]))
    | _ => none
  else if ctype = "closing" then
    match ss with
    | .jobj ssl =>
      some (jSet (jSet r "rubric_scores" (.jobj
        [("role_relevance", (jLookup ssl "situation").getD j15),
         ("company_research", (jLookup ssl "task").getD j15),
         ("strategic_thinking", (jLookup ssl "action").getD j15),
         ("interview_intelligence", (jLookup ssl "result").getD j15)]))
        "rubric_labels"
        (.jarr [.jstr "Role Relevance", .jstr "Company Research",
                .jstr "Strategic Thinking", .jstr "Interview Intelligence"]))
    | _ => none
  else
    some (jSet (jSet r "rubric_scores"
        (if jTruthy ss then ss else defaultStarScores))
      "rubric_labels"
      (.jarr [.jstr "Situation", .jstr "Task", .jstr "Action", .jstr "Result"]))

/-- The defaulting tail of `grade_answer`'s normalisation
(`llm.py` lines 634-646), applied after the migration step: default the
labels (Python evaluates `setdefault`'s
`list(result.get("rubric_scores", {}).keys())` argument eagerly, so a
non-dict `rubric_scores` raises even when `rubric_labels` is present),
default the breakdown, and rebuild `star_scores` positionally when absent. -/
def normalizeTail (r1 : List (String × JVal)) : Option JVal :=
  match (jLookup r1 "rubric_scores").getD (.jobj []) with
  | .jobj rkvs =>
    let r2 := jSetdefault r1 "rubric_labels"
      (.jarr (rkvs.map (fun kv => .jstr kv.1)))
    let r3 := jSetdefault r2 "model_answer_breakdown" (.jstr defaultBreakdown)
    if jHasKey r3 "star_scores" then some (.jobj r3)
    else
      match jLookup r3 "rubric_scores" with
      | some (.jobj rk2) =>
        some (.jobj (jSet r3 "star_scores" (starCompat rk2)))
      | _ => none
  | _ => none

/-- The full normalisation block at the end of `grade_answer`
(`llm.py` lines 610-646): migrate a legacy shape, then apply the
defaulting tail.  `none` is a raised exception (non-dict where Python
expects a dict). -/
def normalizeGrade (ctype : String) (v : JVal) : Option JVal :=
  match v with
  | .jobj r0 =>
    match (if jHasKey r0 "rubric_scores" then some r0
           else migrateRubric ctype r0) with
    | none => none
    | some r1 => normalizeTail r1
  | _ => none

/-- Errors a task builder can surface: all retry attempts failed, no JSON
could be extracted, or the parsed value had the wrong shape. -/
inductive PipeErr (ε : Type) where
  | retry : Option ε → PipeErr ε
  | parse : PipeErr ε
  | shape : PipeErr ε

/-- `grade_answer` (`llm.py` lines 526-646).  The `api_key`/`model`
arguments are captured inside the backend oracle `call`. -/
def gradeAnswer {ε : Type} (call : LlmCall ε) (provider question userAnswer
    category resumeText jdText : String) : Except (PipeErr ε) JVal :=
  let isOllama := provider = "ollama"
  let resumeCtx := if isOllama then ollamaTrim resumeText "grade"
    else trimText resumeText 1000
  let jdCtx := if isOllama then ollamaTrim jdText "grade"
    else trimText jdText 600
  let maxTok := if isOllama then ollamaTokens "grade" else 1400
  let ctype := categoryType category
  let pieces := gradePieces ctype
  let prompt := gradePrompt pieces.2.2.2 pieces.2.1 pieces.2.2.1 question
    category userAnswer resumeCtx jdCtx
  match callWithRetry call prompt pieces.1 (18 / 25) maxTok 3 with
  | .error e => .error (.retry e)
  | .ok raw =>
    match ejCore raw.data with
    | none => .error .parse
    | some v =>
      match normalizeGrade ctype v with
      | none => .error .shape
      | some r => .ok r

/-! ### Session plan builder (`build_session_plan`, `llm.py` lines 289-327) -/

/-- The fixed JSON template of the session-plan prompt. -/
def planTemplate : String :=
  "You are an expert interview coach. Analyse this resume and job description.\n" ++
  "Return ONLY valid JSON:\n" ++
  "\x7b\"candidate_name\":\"<first name from resume or Candidate>\"," ++
  "\"target_role\":\"<role from JD>\"," ++
  "\"company_hints\":\"<company name if visible or empty string>\"," ++
  "\"key_strengths\":[\"<strength>\",\"<strength>\",\"<strength>\"]," ++
  "\"key_gaps\":[\"<gap>\",\"<gap>\",\"<gap>\"]," ++
  "\"opening_message\":\"<2-3 warm sentences welcoming candidate by name>\"," ++
  "\"question_pool\":[" ++
  "\x7b\"id\":1,\"category\":\"Opener\",\"question\":\"Tell me about yourself.\",\"what_great_looks_like\":\"Past→present→future narrative: education + key experience + specific reason for wanting THIS role. 60-90 seconds. Not a CV recitation.\",\"difficulty\":\"Easy\"\x7d," ++
  "\x7b\"id\":2,\"category\":\"Behavioral\",\"question\":\"<STAR question from experience>\",\"what_great_looks_like\":\"<1 sentence>\",\"difficulty\":\"Medium\"\x7d," ++
  "\x7b\"id\":3,\"category\":\"Behavioral\",\"question\":\"<challenge/failure question>\",\"what_great_looks_like\":\"<1 sentence>\",\"difficulty\":\"Medium\"\x7d," ++
  "\x7b\"id\":4,\"category\":\"Technical\",\"question\":\"<role-specific technical question>\",\"what_great_looks_like\":\"<1 sentence>\",\"difficulty\":\"Medium\"\x7d," ++
  "\x7b\"id\":5,\"category\":\"Technical\",\"question\":\"<deeper technical or tool question>\",\"what_great_looks_like\":\"<1 sentence>\",\"difficulty\":\"Hard\"\x7d," ++
  "\x7b\"id\":6,\"category\":\"Situational\",\"question\":\"<hypothetical scenario>\",\"what_great_looks_like\":\"<1 sentence>\",\"difficulty\":\"Medium\"\x7d," ++
  "\x7b\"id\":7,\"category\":\"Leadership\",\"question\":\"<influence or team question>\",\"what_great_looks_like\":\"<1 sentence>\",\"difficulty\":\"Medium\"\x7d," ++
  "\x7b\"id\":8,\"category\":\"Culture Fit\",\"question\":\"<values or motivation question>\",\"what_great_looks_like\":\"<1 sentence>\",\"difficulty\":\"Easy\"\x7d," ++
  "\x7b\"id\":9,\"category\":\"Gap Challenge\",\"question\":\"<probes weakest gap>\",\"what_great_looks_like\":\"<1 sentence>\",\"difficulty\":\"Hard\"\x7d," ++
  "\x7b\"id\":10,\"category\":\"Closing\",\"question\":\"Do you have any questions for me?\",\"what_great_looks_like\":\"2-3 specific questions showing role knowledge, company research, and strategic thinking. Never ask about salary or basic facts you could Google.\",\"difficulty\":\"Easy\"\x7d" ++
  "]\x7d"

/-- The full session-plan prompt. -/
def planPrompt (resumeCtx jdCtx provider : String) : String :=
  planTemplate ++ brevity provider 40 ++
  "\n\nRESUME:\n" ++ resumeCtx ++
  "\n\nJOB DESCRIPTION:\n" ++ jdCtx ++
  "\n\nJSON only:"

/-- `build_session_plan` (`llm.py` lines 289-327).  `_ollama_warmup` is a
fire-and-forget network call whose failures are swallowed, so it is a no-op
in the model.  Note the function returns `_ej(raw)` directly, with no
validation of the parsed plan. -/
def buildSessionPlan {ε : Type} (call : LlmCall ε)
    (provider resumeText jdText : String) : Except (PipeErr ε) JVal :=
  let isOllama := provider = "ollama"
  let resumeCtx := if isOllama then ollamaTrim resumeText "plan"
    else trimText resumeText 3000
  let jdCtx := if isOllama then ollamaTrim jdText "plan"
    else trimText jdText 2000
  let maxTok := if isOllama then ollamaTokens "plan" else 1000
  match callWithRetry call (planPrompt resumeCtx jdCtx provider)
      "Return ONLY valid JSON. No markdown." (1 / 2) maxTok 3 with
  | .error e => .error (.retry e)
  | .ok raw =>
    match ejCore raw.data with
    | none => .error .parse
    | some v => .ok v

/-! ### Document extractor (`src/utils/file_parser.py`, lines 6-42) -/

/-- An uploaded file: a name and raw bytes. -/
structure UFile where
  name : String
  bytes : List Nat

/-- The external decoding/parsing libraries `extract_text` relies on,
as oracles: `bytes.decode("utf-8")` may fail; `pypdf` yields the per-page
extracted texts (with `None` already replaced by `""` as the code does) or
raises; `python-docx` yields the paragraph texts and the table-cell texts
or raises.  The `*Ok` flags model whether the library imports succeed. -/
structure ExtractEnv where
  decodeUtf8 : List Nat → Option String
  pypdfOk : Bool
  pypdfPages : List Nat → Except String (List String)
  docxOk : Bool
  docxParas : List Nat → Except String (List String × List String)

/-- `bytes.decode("latin-1")`: total, each byte maps to one code point. -/
def decodeLatin1 (bs : List Nat) : String := String.mk (bs.map Char.ofNat)

/-- Python `s.endswith(suffix)`. -/
def pyEndsWith (s suffix : String) : Bool := suffix.data.isSuffixOf s.data

/-- The extension reported for unsupported types:
`name.split('.')[-1].upper()`. -/
def lastDotPart (s : String) : String :=
  String.mk (((s.data.splitOn '.').getLast?).getD s.data)

/-- `extract_text` (`file_parser.py` lines 6-42): returns `(text, error)`. -/
def extractText (env : ExtractEnv) (file : Option UFile) : String × String :=
  match file with
  | none => ("", "No file provided.")
  | some f =>
    let name := pyLower f.name
    let data := f.bytes
    if pyEndsWith name ".txt" then
      -- utf-8 first; latin-1 never fails, so the cp1252 and errors="replace"
      -- fallbacks are unreachable.
      match env.decodeUtf8 data with
      | some t => (t, "")
      | none => (decodeLatin1 data, "")
    else if pyEndsWith name ".pdf" then
      if ¬ env.pypdfOk then ("", "pypdf not installed. Run: pip install pypdf")
      else
        match env.pypdfPages data with
        | .error e => ("", "Parse error: " ++ e)
        | .ok pages =>
          let text := pyStrip (String.intercalate "\n" pages)
          if text ≠ "" then (text, "") else ("", "PDF has no extractable text.")
    else if pyEndsWith name ".docx" then
      if ¬ env.docxOk then
        ("", "python-docx not installed. Run: pip install python-docx")
      else
        match env.docxParas data with
        | .error e => ("", "Parse error: " ++ e)
        | .ok pc =>
          let paras := pc.1.filter (fun p => pyStrip p ≠ "")
          let cells := (pc.2.map pyStrip).filter (fun c => c ≠ "")
          let text := pyStrip (String.intercalate "\n" (paras ++ cells))
          if text ≠ "" then (text, "")
          else ("", "DOCX has no extractable text.")
    else ("", "Unsupported type: " ++ pyUpper (lastDotPart name))

/-! ### Scan-invariant predicates (for the `_ej`/`_repair_json` analysis) -/

/-- A character that cannot affect any scanner state: not a quote, not a
backslash, not a bracket. -/
def InertR (c : Char) : Prop :=
  c ≠ qt ∧ c ≠ bslash ∧ c ≠ lbr ∧ c ≠ rbr ∧ c ≠ lbk ∧ c ≠ rbk

/-- A character sequence that leaves every scanner state unchanged and
never triggers the `_ej` break when started at depth ≥ 1: the text of a
complete JSON value, and any run of structural characters between values,
have this property. -/
def ScanNeutral (a : List Char) : Prop :=
  (∀ d : Int, foldSt lbr rbr ⟨d, false, false⟩ a = ⟨d, false, false⟩) ∧
  (∀ d : Int, 1 ≤ d → brkIdx lbr rbr ⟨d, false, false⟩ a = none) ∧
  (∀ d : Int, foldSt lbk rbk ⟨d, false, false⟩ a = ⟨d, false, false⟩) ∧
  (∀ d : Int, 1 ≤ d → brkIdx lbk rbk ⟨d, false, false⟩ a = none) ∧
  (∀ db dk : Int, repFold ⟨false, false, db, dk⟩ a = ⟨false, false, db, dk⟩)

/-- The text from just after an object's `{` to its matching `}`
(inclusive): the brace scan closes one level, firing exactly on the final
character when started at depth 1 and never when started deeper; the
bracket scan is neutral; the repair scan closes one brace. -/
def ObjClose (mid : List Char) : Prop :=
  mid ≠ [] ∧ mid.getLast? = some rbr ∧
  (∀ d : Int, foldSt lbr rbr ⟨d, false, false⟩ mid = ⟨d - 1, false, false⟩) ∧
  brkIdx lbr rbr ⟨1, false, false⟩ mid = some (mid.length - 1) ∧
  (∀ d : Int, 2 ≤ d → brkIdx lbr rbr ⟨d, false, false⟩ mid = none) ∧
  (∀ d : Int, foldSt lbk rbk ⟨d, false, false⟩ mid = ⟨d, false, false⟩) ∧
  (∀ d : Int, 1 ≤ d → brkIdx lbk rbk ⟨d, false, false⟩ mid = none) ∧
  (∀ db dk : Int, repFold ⟨false, false, db, dk⟩ mid
    = ⟨false, false, db - 1, dk⟩)

/-- The text from just after an array's `[` to its matching `]`
(inclusive); the mirror image of `ObjClose`. -/
def ArrClose (mid : List Char) : Prop :=
  mid ≠ [] ∧ mid.getLast? = some rbk ∧
  (∀ d : Int, foldSt lbk rbk ⟨d, false, false⟩ mid = ⟨d - 1, false, false⟩) ∧
  brkIdx lbk rbk ⟨1, false, false⟩ mid = some (mid.length - 1) ∧
  (∀ d : Int, 2 ≤ d → brkIdx lbk rbk ⟨d, false, false⟩ mid = none) ∧
  (∀ d : Int, foldSt lbr rbr ⟨d, false, false⟩ mid = ⟨d, false, false⟩) ∧
  (∀ d : Int, 1 ≤ d → brkIdx lbr rbr ⟨d, false, false⟩ mid = none) ∧
  (∀ db dk : Int, repFold ⟨false, false, db, dk⟩ mid
    = ⟨false, false, db, dk - 1⟩)

/-- The invariants of the text of one complete parsed JSON value: known
start/end characters, scan neutrality, and — when the value is an object
or array — the fact that the `_ej` scan started at depth 0 on the value
(followed by anything) breaks exactly on the value's last character. -/
def ValPre (pre : List Char) : Prop :=
  pre ≠ [] ∧
  (∃ c, pre.head? = some c ∧ (c = qt ∨ c = lbr ∨ c = lbk ∨ c = 'n' ∨
    c = 't' ∨ c = 'f' ∨ numChar c = true)) ∧
  (∃ c, pre.getLast? = some c ∧ ¬ c.isWhitespace ∧ c ≠ commaCh) ∧
  ScanNeutral pre ∧
  (pre.head? = some lbr → ∀ tail,
    brkIdx lbr rbr ⟨0, false, false⟩ (pre ++ tail) = some (pre.length - 1)) ∧
  (pre.head? = some lbk → ∀ tail,
    brkIdx lbk rbk ⟨0, false, false⟩ (pre ++ tail) = some (pre.length - 1))

/-- The four smart-quote characters `_ej` normalises. -/
def smartSafe (c : Char) : Prop :=
  c ≠ Char.ofNat 0x201C ∧ c ≠ Char.ofNat 0x201D ∧
  c ≠ Char.ofNat 0x2018 ∧ c ≠ Char.ofNat 0x2019

/-! ## Helper lemmas -/

theorem callWithRetryGo_succ {ε : Type} (call : LlmCall ε) (p sys : String)
    (t : Rat) (m left k : Nat) (last : Option ε) :
    callWithRetryGo call p sys t m (left + 1) k last =
      match call k (promptAt p k) sys (tempAt t k) m with
      | .ok s => .ok s
      | .error e => callWithRetryGo call p sys t m left (k + 1) (some e) := rfl

/-! ## Claim C2 -/

/-- C2 counterexample: the claim "an authentication failure is never
retried: `_call_with_retry` does not perform any further attempt and
surfaces that error" is false.  With a backend that raises an
authentication error on attempt 1 and succeeds on attempt 2, the
controller returns attempt 2's success — so a further attempt was
performed, and the error was not surfaced. -/
theorem c2_counterexample :
    callWithRetry
      ((fun k _ _ _ _ => if k = 1 then .error (PyErr.authErr "Invalid API key")
        else .ok "done") : LlmCall PyErr) "p" "sys" (1 / 2) 700 3
      = .ok "done" ∧
    (Except.ok "done" : Except (Option PyErr) String)
      ≠ .error (some (PyErr.authErr "Invalid API key")) := by
  exact ⟨rfl, by simp⟩

/-- C2 (amended): an authentication failure is retried like any other
exception — `_call_with_retry`'s bare `except Exception` performs further
attempts after it, and the error is surfaced only when attempts are
exhausted (the last error is then re-raised). -/
theorem c2_auth_error_retried (call : LlmCall PyErr) (p sys : String)
    (t : Rat) (m : Nat) :
    (∀ msg r, call 1 (promptAt p 1) sys (tempAt t 1) m
        = .error (PyErr.authErr msg) →
      call 2 (promptAt p 2) sys (tempAt t 2) m = .ok r →
      callWithRetry call p sys t m 3 = .ok r) ∧
    (∀ m1 m2 m3, call 1 (promptAt p 1) sys (tempAt t 1) m
        = .error (PyErr.authErr m1) →
      call 2 (promptAt p 2) sys (tempAt t 2) m = .error (PyErr.authErr m2) →
      call 3 (promptAt p 3) sys (tempAt t 3) m = .error (PyErr.authErr m3) →
      callWithRetry call p sys t m 3 = .error (some (PyErr.authErr m3))) := by
  constructor
  · intro msg r h1 h2
    show callWithRetryGo call p sys t m (2 + 1) 1 none = .ok r
    rw [callWithRetryGo_succ, h1]
    show callWithRetryGo call p sys t m (1 + 1) 2 _ = .ok r
    rw [callWithRetryGo_succ, h2]
  · intro m1 m2 m3 h1 h2 h3
    show callWithRetryGo call p sys t m (2 + 1) 1 none = _
    rw [callWithRetryGo_succ, h1]
    show callWithRetryGo call p sys t m (1 + 1) 2 _ = _
    rw [callWithRetryGo_succ, h2]
    show callWithRetryGo call p sys t m (0 + 1) 3 _ = _
    rw [callWithRetryGo_succ, h3]
    rfl

/-- C2 witness: the amended theorem applied to a concrete backend. -/
theorem c2_auth_error_retried_witness :
    callWithRetry
      ((fun k _ _ _ _ => if k = 1 then .error (PyErr.authErr "bad key")
        else .ok "ok") : LlmCall PyErr) "p" "sys" (1 / 2) 700 3 = .ok "ok" :=
  (c2_auth_error_retried
    ((fun k _ _ _ _ => if k = 1 then .error (PyErr.authErr "bad key")
      else .ok "ok") : LlmCall PyErr) "p" "sys" (1 / 2) 700).1
    "bad key" "ok" rfl rfl

/-! ## Claim C7 -/

/-- C7 counterexample: at the temperature floor the claimed strict decrease
fails.  With `temperature = 0.1`, a backend failing on attempts 1 and 2 and
succeeding on attempt 3 gets the attempt-3 result, but the temperature
passed on attempt 3 equals (is not strictly lower than) the one passed on
attempt 1, because both are clamped to the 0.1 floor. -/
theorem c7_counterexample :
    callWithRetry
      ((fun k _ _ _ _ => if k = 3 then .ok "resp"
        else .error (PyErr.backendErr "boom")) : LlmCall PyErr)
      "p" "sys" (1 / 10) 700 3 = .ok "resp" ∧
    tempAt (1 / 10) 3 = tempAt (1 / 10) 1 := by
  exact ⟨rfl, by norm_num [tempAt]⟩

/-- C7 (amended): with failures on attempts 1 and 2 and success on
attempt 3, `_call_with_retry` returns the attempt-3 response; the
temperature passed on attempt 3 is strictly lower than on attempt 1
provided the requested temperature is above the 0.1 floor; and when all 3
attempts fail the last error is re-raised. -/
theorem c7_retry_behaviour {ε : Type} (call : LlmCall ε) (p sys : String)
    (t : Rat) (m : Nat) :
    (∀ e1 e2 r, call 1 (promptAt p 1) sys (tempAt t 1) m = .error e1 →
      call 2 (promptAt p 2) sys (tempAt t 2) m = .error e2 →
      call 3 (promptAt p 3) sys (tempAt t 3) m = .ok r →
      callWithRetry call p sys t m 3 = .ok r) ∧
    (1 / 10 < t → tempAt t 3 < tempAt t 1) ∧
    (∀ e1 e2 e3, call 1 (promptAt p 1) sys (tempAt t 1) m = .error e1 →
      call 2 (promptAt p 2) sys (tempAt t 2) m = .error e2 →
      call 3 (promptAt p 3) sys (tempAt t 3) m = .error e3 →
      callWithRetry call p sys t m 3 = .error (some e3)) := by
  refine ⟨?_, ?_, ?_⟩
  · intro e1 e2 r h1 h2 h3
    show callWithRetryGo call p sys t m (2 + 1) 1 none = .ok r
    rw [callWithRetryGo_succ, h1]
    show callWithRetryGo call p sys t m (1 + 1) 2 _ = .ok r
    rw [callWithRetryGo_succ, h2]
    show callWithRetryGo call p sys t m (0 + 1) 3 _ = .ok r
    rw [callWithRetryGo_succ, h3]
  · intro ht
    have h1 : tempAt t 1 = t := by
      simp only [tempAt]
      norm_num
      linarith
    have h3 : tempAt t 3 ≤ max (1 / 10) (t - 1 / 10) := by
      simp only [tempAt]
      norm_num
    calc tempAt t 3 ≤ max (1 / 10) (t - 1 / 10) := h3
      _ < t := by
        rw [max_lt_iff]
        constructor <;> linarith
      _ = tempAt t 1 := h1.symm
  · intro e1 e2 e3 h1 h2 h3
    show callWithRetryGo call p sys t m (2 + 1) 1 none = _
    rw [callWithRetryGo_succ, h1]
    show callWithRetryGo call p sys t m (1 + 1) 2 _ = _
    rw [callWithRetryGo_succ, h2]
    show callWithRetryGo call p sys t m (0 + 1) 3 _ = _
    rw [callWithRetryGo_succ, h3]
    rfl

/-- C7 witness: the amended theorem applied to a concrete backend at
temperature 0.72 (the grading temperature). -/
theorem c7_retry_behaviour_witness :
    callWithRetry
      ((fun k _ _ _ _ => if k = 3 then .ok "resp"
        else .error (PyErr.backendErr "boom")) : LlmCall PyErr)
      "p" "sys" (18 / 25) 700 3 = .ok "resp" ∧
    tempAt (18 / 25) 3 < tempAt (18 / 25) 1 := by
  refine ⟨(c7_retry_behaviour _ "p" "sys" (18 / 25) 700).1
      (PyErr.backendErr "boom") (PyErr.backendErr "boom") "resp" rfl rfl rfl,
    (c7_retry_behaviour
      ((fun k _ _ _ _ => if k = 3 then .ok "resp"
        else .error (PyErr.backendErr "boom")) : LlmCall PyErr)
      "p" "sys" (18 / 25) 700).2.1 (by norm_num)⟩

/-! ## Claim C3 -/

/-- C3 counterexample: the claim that `build_session_plan` "fails with a
plan-build error rather than returning the defective plan" when the parsed
result is missing the question list is false.  With a backend whose
response parses to an object with no `question_pool` key, the function
returns that defective plan successfully; no `PlanBuildError` (or any
validation) exists in the code. -/
theorem c3_counterexample :
    buildSessionPlan
      ((fun _ _ _ _ _ => .ok "\x7b\"candidate_name\":\"X\"\x7d") : LlmCall PyErr)
      "groq" "resume text" "jd text"
      = .ok (JVal.jobj [("candidate_name", JVal.jstr "X")]) ∧
    jHasKey [("candidate_name", JVal.jstr "X")] "question_pool" = false := by
  exact ⟨rfl, rfl⟩

/-- C3 (amended): `build_session_plan` performs no validation of the parsed
plan: whatever JSON value the extractor produces from the backend response
is returned as the plan, whether or not it contains a (non-empty) question
list; the function fails only when all retries fail or when no JSON can be
extracted. -/
theorem c3_no_plan_validation {ε : Type} (call : LlmCall ε)
    (provider resumeText jdText raw : String) (v : JVal)
    (h1 : callWithRetry call
      (planPrompt
        (if provider = "ollama" then ollamaTrim resumeText "plan"
         else trimText resumeText 3000)
        (if provider = "ollama" then ollamaTrim jdText "plan"
         else trimText jdText 2000)
        provider)
      "Return ONLY valid JSON. No markdown." (1 / 2)
      (if provider = "ollama" then ollamaTokens "plan" else 1000) 3
      = .ok raw)
    (h2 : ejCore raw.data = some v) :
    buildSessionPlan call provider resumeText jdText = .ok v := by
  simp only [buildSessionPlan, h1, h2]

/-- C3 witness: the amended theorem applied to a concrete backend whose
response has an empty `question_pool`. -/
theorem c3_no_plan_validation_witness :
    buildSessionPlan
      ((fun _ _ _ _ _ => .ok "\x7b\"question_pool\":[]\x7d") : LlmCall PyErr)
      "groq" "r" "j" = .ok (JVal.jobj [("question_pool", JVal.jarr [])]) :=
  c3_no_plan_validation
    ((fun _ _ _ _ _ => .ok "\x7b\"question_pool\":[]\x7d") : LlmCall PyErr)
    "groq" "r" "j" "\x7b\"question_pool\":[]\x7d"
    (JVal.jobj [("question_pool", JVal.jarr [])]) rfl rfl

/-! ## Claim C8 -/

set_option maxRecDepth 10000 in
/-- C8 counterexample: the claim quantifies over every text longer than the
limit, but `_ollama_trim` returns `""` for whitespace-only text (the
`not text.strip()` guard), which does not start with the text's first
`limit/2` characters.  Task `"tip"` has limit 200; 201 spaces exceed it. -/
theorem c8_counterexample :
    ollamaTrim (String.mk (List.replicate 201 ' ')) "tip" = "" ∧
    ¬ (pyTake (String.mk (List.replicate 201 ' ')) 100).data
        <+: (ollamaTrim (String.mk (List.replicate 201 ' ')) "tip").data := by
  decide

/-- C8 (amended): for every text that contains at least one non-whitespace
character and whose length exceeds the task's limit, the head-tail trim
returns a string that starts with the text's first `limit/2` characters and
ends with its last `limit/2` characters. -/
theorem c8_head_tail_trim (text task : String)
    (h1 : ∃ c ∈ text.data, ¬ c.isWhitespace)
    (h2 : ollamaCtx task < pyLen text) :
    (pyTake text (ollamaCtx task / 2)).data <+: (ollamaTrim text task).data ∧
    (pyTakeLast text (ollamaCtx task / 2)).data <:+ (ollamaTrim text task).data := by
  have hall : ¬ (text.data.all Char.isWhitespace = true) := by
    rw [List.all_eq_true]
    push_neg
    rcases h1 with ⟨c, hc, hnw⟩
    exact ⟨c, hc, by simpa using hnw⟩
  have hres : ollamaTrim text task
      = pyTake text (ollamaCtx task / 2) ++ "\n[...]\n" ++
        pyTakeLast text (ollamaCtx task / 2) := by
    simp only [ollamaTrim]
    rw [if_neg hall, if_neg (by omega : ¬ pyLen text ≤ ollamaCtx task)]
  rw [hres]
  constructor
  · rw [String.data_append, String.data_append, List.append_assoc]
    exact List.prefix_append _ _
  · rw [String.data_append]
    exact List.suffix_append _ _

/-- C8 witness: the amended theorem at 401 letters with task `"grade"`
(limit 400). -/
theorem c8_head_tail_trim_witness :
    (pyTake (String.mk (List.replicate 401 'a')) 200).data
      <+: (ollamaTrim (String.mk (List.replicate 401 'a')) "grade").data ∧
    (pyTakeLast (String.mk (List.replicate 401 'a')) 200).data
      <:+ (ollamaTrim (String.mk (List.replicate 401 'a')) "grade").data :=
  c8_head_tail_trim (String.mk (List.replicate 401 'a')) "grade"
    ⟨'a', List.mem_replicate.mpr ⟨by norm_num, rfl⟩, by decide⟩
    (by
      show ollamaCtx "grade" < (List.replicate 401 'a').length
      rw [List.length_replicate]
      decide)

/-! ## Claim C10 -/

/-- C10 (confirmed): the grade depends only on the first 1200 characters of
the candidate's answer.  If two answers agree on their first 1200
characters then, with all other inputs and the same backend behaviour, the
grading prompt is syntactically identical and `grade_answer` returns the
same record. -/
theorem c10_grade_answer_1200 {ε : Type} (call : LlmCall ε)
    (provider question category resumeText jdText a b : String)
    (h : pyTake a 1200 = pyTake b 1200) :
    (∀ persona rubricJson answerFields resumeCtx jdCtx,
      gradePrompt persona rubricJson answerFields question category a
        resumeCtx jdCtx
      = gradePrompt persona rubricJson answerFields question category b
        resumeCtx jdCtx) ∧
    gradeAnswer call provider question a category resumeText jdText
      = gradeAnswer call provider question b category resumeText jdText := by
  constructor
  · intro persona rubricJson answerFields resumeCtx jdCtx
    simp only [gradePrompt, h]
  · simp only [gradeAnswer, gradePrompt, h]

/-- C10 witness: two concrete 1201-character answers that differ only in
their final character produce the same grade record. -/
theorem c10_grade_answer_1200_witness :
    gradeAnswer ((fun _ _ _ _ _ => .ok "\x7b\"score\": 80\x7d") : LlmCall PyErr)
      "groq" "Q" (String.mk (List.replicate 1200 'x' ++ ['A'])) "Behavioral"
      "" ""
    = gradeAnswer ((fun _ _ _ _ _ => .ok "\x7b\"score\": 80\x7d") : LlmCall PyErr)
      "groq" "Q" (String.mk (List.replicate 1200 'x' ++ ['B'])) "Behavioral"
      "" "" :=
  (c10_grade_answer_1200 _ "groq" "Q" "Behavioral" "" ""
    (String.mk (List.replicate 1200 'x' ++ ['A']))
    (String.mk (List.replicate 1200 'x' ++ ['B']))
    (by
      show String.mk ((List.replicate 1200 'x' ++ ['A']).take 1200)
        = String.mk ((List.replicate 1200 'x' ++ ['B']).take 1200)
      refine congrArg String.mk ?_
      rw [List.take_append_eq_append_take, List.take_append_eq_append_take,
        List.length_replicate, Nat.sub_self, List.take_zero,
        List.take_zero])).2

/-! ## Claim C9 -/

/-- C9 counterexample: the claim "error is non-empty exactly when text is
empty" fails for an empty (or whitespace-only decoded) `.txt` file: the txt
branch returns the decoded text with an empty error and never checks the
text for emptiness, so an empty txt file yields `("", "")`. -/
theorem c9_counterexample :
    extractText
      ⟨fun bs => if bs.isEmpty then some "" else none, true,
        fun _ => .ok [], true, fun _ => .ok ([], [])⟩
      (some ⟨"resume.txt", []⟩) = ("", "") := rfl

/-- Helper: a string with a non-empty literal prefix is non-empty. -/
theorem strAppend_ne_empty (p e : String) (hp : p.data ≠ []) : p ++ e ≠ "" := by
  intro h
  apply hp
  have hd := congrArg String.data h
  rw [String.data_append] at hd
  exact (List.append_eq_nil.mp hd).1

/-- C9 (amended): a non-empty error always implies empty text (every return
path yields empty text or an empty error), and empty text together with an
empty error can only arise from a `.txt` file (whose decoded content the
code does not check for emptiness); for every other input, empty text
implies a non-empty error. -/
theorem c9_extract_text_contract (env : ExtractEnv) (file : Option UFile) :
    ((extractText env file).2 ≠ "" → (extractText env file).1 = "") ∧
    ((extractText env file).1 = "" → (extractText env file).2 = "" →
      ∃ f, file = some f ∧ pyEndsWith (pyLower f.name) ".txt" = true) := by
  rcases file with _ | f
  · exact ⟨fun _ => rfl, fun _ h =>
      absurd h (by decide : ¬ ("No file provided." = ""))⟩
  · simp only [extractText]
    constructor
    · -- non-empty error implies empty text
      split
      · split <;> (intro h; exact absurd rfl h)
      · split
        · split
          · intro _; rfl
          · split
            · intro _; rfl
            · split
              · intro h; exact absurd rfl h
              · intro _; rfl
        · split
          · split
            · intro _; rfl
            · split
              · intro _; rfl
              · split
                · intro h; exact absurd rfl h
                · intro _; rfl
          · intro _; rfl
    · -- empty text and empty error only in the txt branch
      split
      next htxt =>
        split <;> (intro _ _; exact ⟨f, rfl, htxt⟩)
      next htxt =>
        split
        · split
          · intro _ h; exact absurd h (by decide)
          · split
            · intro _ h; exact absurd h (strAppend_ne_empty _ _ (by decide))
            · split
              next ht => intro h _; exact absurd h ht
              next ht => intro _ h; exact absurd h (by decide)
        · split
          · split
            · intro _ h; exact absurd h (by decide)
            · split
              · intro _ h; exact absurd h (strAppend_ne_empty _ _ (by decide))
              · split
                next ht => intro h _; exact absurd h ht
                next ht => intro _ h; exact absurd h (by decide)
          · intro _ h; exact absurd h (strAppend_ne_empty _ _ (by decide))

/-- C9 witness: the amended theorem applied to a missing file and to a
successful PDF extraction. -/
theorem c9_extract_text_contract_witness :
    (extractText
      ⟨fun _ => some "txt", true, fun _ => .ok ["page one"], true,
        fun _ => .ok ([], [])⟩ none).1 = "" ∧
    ((extractText
      ⟨fun _ => some "txt", true, fun _ => .ok ["page one"], true,
        fun _ => .ok ([], [])⟩ (some ⟨"cv.pdf", [1]⟩)).1 = "" →
      (extractText
      ⟨fun _ => some "txt", true, fun _ => .ok ["page one"], true,
        fun _ => .ok ([], [])⟩ (some ⟨"cv.pdf", [1]⟩)).2 = "" → False) := by
  constructor
  · exact (c9_extract_text_contract
      ⟨fun _ => some "txt", true, fun _ => .ok ["page one"], true,
        fun _ => .ok ([], [])⟩ none).1 (by decide)
  · intro h1 h2
    rcases (c9_extract_text_contract
      ⟨fun _ => some "txt", true, fun _ => .ok ["page one"], true,
        fun _ => .ok ([], [])⟩ (some ⟨"cv.pdf", [1]⟩)).2 h1 h2 with ⟨g, hg, he⟩
    rw [show g = ⟨"cv.pdf", [1]⟩ from (Option.some_injective _ hg.symm)] at he
    exact absurd he (by decide)

/-! ## Dict-operation lemmas (for C4 and C5) -/

@[simp]
theorem jLookup_nil (k : String) : jLookup [] k = none := rfl

@[simp]
theorem jLookup_cons (a : String × JVal) (rest : List (String × JVal))
    (k : String) :
    jLookup (a :: rest) k = if a.1 = k then some a.2 else jLookup rest k := rfl

theorem jLookup_jSet_self (kvs : List (String × JVal)) (k : String) (v : JVal) :
    jLookup (jSet kvs k v) k = some v := by
  unfold jSet
  split
  · rename_i h
    induction kvs with
    | nil => simp [jHasKey] at h
    | cons kv rest ih =>
      rw [List.map_cons]
      by_cases hk : kv.1 = k
      · rw [if_pos hk, jLookup_cons, if_pos hk]
      · rw [if_neg hk, jLookup_cons, if_neg hk]
        exact ih (by simpa [jHasKey, if_neg hk] using h)
  · rename_i h
    induction kvs with
    | nil => simp
    | cons kv rest ih =>
      by_cases hk : kv.1 = k
      · exact absurd (by simp [jHasKey, hk]) h
      · rw [List.cons_append, jLookup_cons, if_neg hk]
        exact ih (by simpa [jHasKey, if_neg hk] using h)

theorem jLookup_jSet_ne (kvs : List (String × JVal)) (k' k : String) (v : JVal)
    (hne : k' ≠ k) : jLookup (jSet kvs k' v) k = jLookup kvs k := by
  unfold jSet
  split
  · rename_i h
    clear h
    induction kvs with
    | nil => simp
    | cons kv rest ih =>
      rw [List.map_cons, jLookup_cons]
      by_cases hk' : kv.1 = k'
      · rw [if_pos hk', jLookup_cons]
        have hkk : ¬ kv.1 = k := fun hh => hne (hk' ▸ hh)
        rw [if_neg hkk, if_neg hkk, ih]
      · rw [if_neg hk', jLookup_cons]
        by_cases hk : kv.1 = k
        · rw [if_pos hk, if_pos hk]
        · rw [if_neg hk, if_neg hk, ih]
  · rename_i h
    clear h
    induction kvs with
    | nil => simp [if_neg hne]
    | cons kv rest ih =>
      rw [List.cons_append, jLookup_cons, jLookup_cons]
      by_cases hk : kv.1 = k
      · rw [if_pos hk, if_pos hk]
      · rw [if_neg hk, if_neg hk, ih]

theorem jHasKey_jSet_self (kvs : List (String × JVal)) (k : String) (v : JVal) :
    jHasKey (jSet kvs k v) k = true := by
  rw [jHasKey, jLookup_jSet_self]; rfl

theorem jHasKey_jSet_ne (kvs : List (String × JVal)) (k' k : String) (v : JVal)
    (hne : k' ≠ k) : jHasKey (jSet kvs k' v) k = jHasKey kvs k := by
  rw [jHasKey, jLookup_jSet_ne _ _ _ _ hne, jHasKey]

theorem jLookup_jRemove_self (kvs : List (String × JVal)) (k : String) :
    jLookup (jRemove kvs k) k = none := by
  induction kvs with
  | nil => rfl
  | cons kv rest ih =>
    by_cases hk : kv.1 = k
    · simpa [jRemove, List.filter_cons, hk] using ih
    · simpa [jRemove, List.filter_cons, hk, if_neg hk] using ih

theorem jHasKey_jRemove_self (kvs : List (String × JVal)) (k : String) :
    jHasKey (jRemove kvs k) k = false := by
  rw [jHasKey, jLookup_jRemove_self]; rfl

/-! ## Migration and normalisation lemmas (for C4 and C5) -/

/-- What the migration step guarantees: `rubric_scores` set (with the fixed
key lists in the opener/closing cases), `rubric_labels` set to the fixed
per-category list, and `star_scores` removed. -/
theorem migrateRubric_spec (ctype : String) (r0 r1 : List (String × JVal))
    (h : migrateRubric ctype r0 = some r1) :
    jHasKey r1 "rubric_scores" = true ∧
    jLookup r1 "rubric_labels" = some (fixedLabels ctype) ∧
    jHasKey r1 "star_scores" = false ∧
    (ctype = "opener" → ∃ sc, jLookup r1 "rubric_scores" = some (.jobj sc) ∧
      sc.map Prod.fst = ["narrative_arc", "relevant_experience",
        "motivation_fit", "delivery_confidence"]) ∧
    (ctype = "closing" → ∃ sc, jLookup r1 "rubric_scores" = some (.jobj sc) ∧
      sc.map Prod.fst = ["role_relevance", "company_research",
        "strategic_thinking", "interview_intelligence"]) := by
  have hlr : ("rubric_labels" : String) ≠ "rubric_scores" := by decide
  have hls : ("rubric_labels" : String) ≠ "star_scores" := by decide
  have hrs : ("rubric_scores" : String) ≠ "star_scores" := by decide
  unfold migrateRubric at h
  by_cases hop : ctype = "opener"
  · rw [if_pos hop] at h
    rcases hss : (jLookup r0 "star_scores").getD (.jobj []) with
      _ | b | ns | ss | xs | ssl
    · rw [hss] at h; simp at h
    · rw [hss] at h; simp at h
    · rw [hss] at h; simp at h
    · rw [hss] at h; simp at h
    · rw [hss] at h; simp at h
    rw [hss] at h
    injection h with h
    subst h
    have hsc : jLookup (jSet (jSet (jRemove r0 "star_scores") "rubric_scores"
        (JVal.jobj
          [("narrative_arc", (jLookup ssl "situation").getD j15),
           ("relevant_experience", (jLookup ssl "task").getD j15),
           ("motivation_fit", (jLookup ssl "action").getD j15),
           ("delivery_confidence", (jLookup ssl "result").getD j15)]))
        "rubric_labels"
        (JVal.jarr [JVal.jstr "Narrative Arc", JVal.jstr "Relevant Experience",
          JVal.jstr "Motivation & Fit", JVal.jstr "Delivery & Confidence"]))
        "rubric_scores" = some (JVal.jobj
          [("narrative_arc", (jLookup ssl "situation").getD j15),
           ("relevant_experience", (jLookup ssl "task").getD j15),
           ("motivation_fit", (jLookup ssl "action").getD j15),
           ("delivery_confidence", (jLookup ssl "result").getD j15)]) := by
      rw [jLookup_jSet_ne _ _ _ _ hlr, jLookup_jSet_self]
    refine ⟨?_, ?_, ?_, fun _ => ⟨_, hsc, rfl⟩,
      fun hcl => absurd (hop ▸ hcl) (by decide)⟩
    · rw [jHasKey_jSet_ne _ _ _ _ hlr, jHasKey_jSet_self]
    · rw [jLookup_jSet_self, fixedLabels, if_pos hop]
    · rw [jHasKey_jSet_ne _ _ _ _ hls, jHasKey_jSet_ne _ _ _ _ hrs,
        jHasKey_jRemove_self]
  · rw [if_neg hop] at h
    by_cases hcl : ctype = "closing"
    · rw [if_pos hcl] at h
      rcases hss : (jLookup r0 "star_scores").getD (.jobj []) with
        _ | b | ns | ss | xs | ssl
      · rw [hss] at h; simp at h
      · rw [hss] at h; simp at h
      · rw [hss] at h; simp at h
      · rw [hss] at h; simp at h
      · rw [hss] at h; simp at h
      rw [hss] at h
      injection h with h
      subst h
      have hsc : jLookup (jSet (jSet (jRemove r0 "star_scores") "rubric_scores"
          (JVal.jobj
            [("role_relevance", (jLookup ssl "situation").getD j15),
             ("company_research", (jLookup ssl "task").getD j15),
             ("strategic_thinking", (jLookup ssl "action").getD j15),
             ("interview_intelligence", (jLookup ssl "result").getD j15)]))
          "rubric_labels"
          (JVal.jarr [JVal.jstr "Role Relevance", JVal.jstr "Company Research",
            JVal.jstr "Strategic Thinking", JVal.jstr "Interview Intelligence"]))
          "rubric_scores" = some (JVal.jobj
            [("role_relevance", (jLookup ssl "situation").getD j15),
             ("company_research", (jLookup ssl "task").getD j15),
             ("strategic_thinking", (jLookup ssl "action").getD j15),
             ("interview_intelligence", (jLookup ssl "result").getD j15)]) := by
        rw [jLookup_jSet_ne _ _ _ _ hlr, jLookup_jSet_self]
      refine ⟨?_, ?_, ?_, fun hop' => absurd hop' hop, fun _ => ⟨_, hsc, rfl⟩⟩
      · rw [jHasKey_jSet_ne _ _ _ _ hlr, jHasKey_jSet_self]
      · rw [jLookup_jSet_self, fixedLabels, if_neg hop, if_pos hcl]
      · rw [jHasKey_jSet_ne _ _ _ _ hls, jHasKey_jSet_ne _ _ _ _ hrs,
          jHasKey_jRemove_self]
    · rw [if_neg hcl] at h
      injection h with h
      subst h
      refine ⟨?_, ?_, ?_, fun hop' => absurd hop' hop, fun hcl' => absurd hcl' hcl⟩
      · rw [jHasKey_jSet_ne _ _ _ _ hlr, jHasKey_jSet_self]
      · rw [jLookup_jSet_self, fixedLabels, if_neg hop, if_neg hcl]
      · rw [jHasKey_jSet_ne _ _ _ _ hls, jHasKey_jSet_ne _ _ _ _ hrs,
          jHasKey_jRemove_self]

theorem jLookup_jSetdefault_ne (kvs : List (String × JVal)) (k k' : String)
    (v : JVal) (hne : k ≠ k') :
    jLookup (jSetdefault kvs k v) k' = jLookup kvs k' := by
  unfold jSetdefault
  split
  · rfl
  · exact jLookup_jSet_ne _ _ _ _ hne

theorem jHasKey_jSetdefault_self (kvs : List (String × JVal)) (k : String)
    (v : JVal) : jHasKey (jSetdefault kvs k v) k = true := by
  unfold jSetdefault
  split
  · assumption
  · exact jHasKey_jSet_self _ _ _

theorem jHasKey_jSetdefault_ne (kvs : List (String × JVal)) (k k' : String)
    (v : JVal) (hne : k ≠ k') :
    jHasKey (jSetdefault kvs k v) k' = jHasKey kvs k' := by
  rw [jHasKey, jLookup_jSetdefault_ne _ _ _ _ hne, jHasKey]

theorem jLookup_jSetdefault_present (kvs : List (String × JVal)) (k : String)
    (v l : JVal) (hl : jLookup kvs k = some l) :
    jLookup (jSetdefault kvs k v) k = some l := by
  unfold jSetdefault
  rw [if_pos (by rw [jHasKey, hl]; rfl)]
  exact hl

/-- What the defaulting tail of the normalisation guarantees, given that the
migration step has ensured a `rubric_scores` key (a parsed-result invariant
of `grade_answer`). -/
theorem normalizeTail_spec (r1 : List (String × JVal)) (out : JVal)
    (hrs : jHasKey r1 "rubric_scores" = true)
    (h : normalizeTail r1 = some out) :
    ∃ out', out = .jobj out' ∧
      jHasKey out' "rubric_scores" = true ∧
      jHasKey out' "rubric_labels" = true ∧
      (∀ l, jLookup r1 "rubric_labels" = some l →
        jLookup out' "rubric_labels" = some l) ∧
      (∀ sc, jLookup r1 "rubric_scores" = some sc →
        jLookup out' "rubric_scores" = some sc) ∧
      (jHasKey r1 "star_scores" = false →
        ∃ sc, jLookup out' "rubric_scores" = some (.jobj sc) ∧
          jLookup out' "star_scores" = some (starCompat sc)) := by
  have nlr : ("rubric_labels" : String) ≠ "rubric_scores" := by decide
  have nbr : ("model_answer_breakdown" : String) ≠ "rubric_scores" := by decide
  have nbl : ("model_answer_breakdown" : String) ≠ "rubric_labels" := by decide
  have nls : ("rubric_labels" : String) ≠ "star_scores" := by decide
  have nbs : ("model_answer_breakdown" : String) ≠ "star_scores" := by decide
  have nsr : ("star_scores" : String) ≠ "rubric_scores" := by decide
  have nsl : ("star_scores" : String) ≠ "rubric_labels" := by decide
  unfold normalizeTail at h
  split at h
  case h_2 => simp at h
  rename_i rkvs heq
  simp only [] at h
  have hlk : jLookup r1 "rubric_scores" = some (.jobj rkvs) := by
    rcases hlk0 : jLookup r1 "rubric_scores" with _ | X
    · rw [jHasKey, hlk0] at hrs
      exact absurd hrs (by simp)
    · rw [hlk0, Option.getD_some] at heq
      rw [heq]
  · -- the r3 dict after the two setdefault steps
    have h3rs : jLookup (jSetdefault (jSetdefault r1 "rubric_labels"
        (.jarr (rkvs.map (fun kv => .jstr kv.1)))) "model_answer_breakdown"
        (.jstr defaultBreakdown)) "rubric_scores" = some (.jobj rkvs) := by
      rw [jLookup_jSetdefault_ne _ _ _ _ nbr, jLookup_jSetdefault_ne _ _ _ _ nlr]
      exact hlk
    have h3lab : jHasKey (jSetdefault (jSetdefault r1 "rubric_labels"
        (.jarr (rkvs.map (fun kv => .jstr kv.1)))) "model_answer_breakdown"
        (.jstr defaultBreakdown)) "rubric_labels" = true := by
      rw [jHasKey_jSetdefault_ne _ _ _ _ nbl, jHasKey_jSetdefault_self]
    have h3labP : ∀ l, jLookup r1 "rubric_labels" = some l →
        jLookup (jSetdefault (jSetdefault r1 "rubric_labels"
          (.jarr (rkvs.map (fun kv => .jstr kv.1)))) "model_answer_breakdown"
          (.jstr defaultBreakdown)) "rubric_labels" = some l := by
      intro l hl
      rw [jLookup_jSetdefault_ne _ _ _ _ nbl]
      exact jLookup_jSetdefault_present _ _ _ _ hl
    have h3st : jHasKey (jSetdefault (jSetdefault r1 "rubric_labels"
        (.jarr (rkvs.map (fun kv => .jstr kv.1)))) "model_answer_breakdown"
        (.jstr defaultBreakdown)) "star_scores" = jHasKey r1 "star_scores" := by
      rw [jHasKey_jSetdefault_ne _ _ _ _ nbs, jHasKey_jSetdefault_ne _ _ _ _ nls]
    by_cases hst : jHasKey r1 "star_scores" = true
    · rw [if_pos (by rw [h3st]; exact hst)] at h
      injection h with h
      subst h
      refine ⟨_, rfl, by rw [jHasKey, h3rs]; rfl, h3lab, h3labP,
        fun sc hsc => by rw [hlk] at hsc; injection hsc with hsc; rw [h3rs, hsc],
        fun hf => absurd hst (by simp [hf])⟩
    · rw [if_neg (by rw [h3st]; exact hst)] at h
      rw [h3rs] at h
      injection h with h
      subst h
      refine ⟨_, rfl, ?_, ?_, ?_, ?_, fun _ => ⟨rkvs, ?_, ?_⟩⟩
      · rw [jHasKey_jSet_ne _ _ _ _ nsr, jHasKey, h3rs]; rfl
      · rw [jHasKey_jSet_ne _ _ _ _ nsl, h3lab]
      · intro l hl
        rw [jLookup_jSet_ne _ _ _ _ nsl]
        exact h3labP l hl
      · intro sc hsc
        rw [hlk] at hsc
        injection hsc with hsc
        rw [jLookup_jSet_ne _ _ _ _ nsr, h3rs, hsc]
      · rw [jLookup_jSet_ne _ _ _ _ nsr, h3rs]
      · rw [jLookup_jSet_self]

/-- Combined specification of the normalisation block. -/
theorem normalizeGrade_spec (ctype : String) (r0 : List (String × JVal))
    (out : JVal) (h : normalizeGrade ctype (.jobj r0) = some out) :
    ∃ out', out = .jobj out' ∧
      jHasKey out' "rubric_scores" = true ∧
      jHasKey out' "rubric_labels" = true ∧
      (jHasKey r0 "star_scores" = false →
        ∃ sc, jLookup out' "rubric_scores" = some (.jobj sc) ∧
          jLookup out' "star_scores" = some (starCompat sc)) ∧
      (jHasKey r0 "rubric_scores" = false →
        jLookup out' "rubric_labels" = some (fixedLabels ctype) ∧
        (ctype = "opener" → ∃ sc, jLookup out' "rubric_scores"
          = some (.jobj sc) ∧ sc.map Prod.fst = ["narrative_arc",
            "relevant_experience", "motivation_fit", "delivery_confidence"]) ∧
        (ctype = "closing" → ∃ sc, jLookup out' "rubric_scores"
          = some (.jobj sc) ∧ sc.map Prod.fst = ["role_relevance",
            "company_research", "strategic_thinking",
            "interview_intelligence"])) := by
  simp only [normalizeGrade] at h
  by_cases h0 : jHasKey r0 "rubric_scores" = true
  · rw [if_pos h0] at h
    simp only [] at h
    obtain ⟨out', ho, hks, hkl, _, _, hstar⟩ := normalizeTail_spec r0 out h0 h
    exact ⟨out', ho, hks, hkl, hstar, fun hf => absurd h0 (by simp [hf])⟩
  · rw [if_neg h0] at h
    rcases hm : migrateRubric ctype r0 with _ | r1
    · rw [hm] at h
      simp at h
    · rw [hm] at h
      simp only [] at h
      obtain ⟨F1, Flab, Fstar, Fop, Fcl⟩ := migrateRubric_spec ctype r0 r1 hm
      obtain ⟨out', ho, hks, hkl, labP, scP, starP⟩ :=
        normalizeTail_spec r1 out F1 h
      refine ⟨out', ho, hks, hkl, fun _ => starP Fstar, fun _ =>
        ⟨labP _ Flab, ?_, ?_⟩⟩
      · intro hop
        obtain ⟨sc, hsc, hkeys⟩ := Fop hop
        exact ⟨sc, scP _ hsc, hkeys⟩
      · intro hcl
        obtain ⟨sc, hsc, hkeys⟩ := Fcl hcl
        exact ⟨sc, scP _ hsc, hkeys⟩

/-- Inversion of the `grade_answer` pipeline: a returned record is the
normalisation of the extractor's parse of the retry controller's
response. -/
theorem gradeAnswer_inv {ε : Type} (call : LlmCall ε)
    (provider question userAnswer category resumeText jdText : String)
    (out : JVal)
    (h : gradeAnswer call provider question userAnswer category resumeText
      jdText = .ok out) :
    ∃ raw r0,
      callWithRetry call
        (gradePrompt (gradePieces (categoryType category)).2.2.2
          (gradePieces (categoryType category)).2.1
          (gradePieces (categoryType category)).2.2.1 question category
          userAnswer
          (if provider = "ollama" then ollamaTrim resumeText "grade"
           else trimText resumeText 1000)
          (if provider = "ollama" then ollamaTrim jdText "grade"
           else trimText jdText 600))
        (gradePieces (categoryType category)).1 (18 / 25)
        (if provider = "ollama" then ollamaTokens "grade" else 1400) 3
        = .ok raw ∧
      ejCore raw.data = some (.jobj r0) ∧
      normalizeGrade (categoryType category) (.jobj r0) = some out := by
  simp only [gradeAnswer] at h
  split at h
  case h_1 => simp at h
  rename_i raw hcall
  split at h
  case h_1 => simp at h
  rename_i v hej
  split at h
  case h_1 => simp at h
  rename_i r hnorm
  injection h with h
  subst h
  rcases v with _ | b | ns | ss | xs | r0
  · simp [normalizeGrade] at hnorm
  · simp [normalizeGrade] at hnorm
  · simp [normalizeGrade] at hnorm
  · simp [normalizeGrade] at hnorm
  · simp [normalizeGrade] at hnorm
  · exact ⟨raw, r0, hcall, hej, hnorm⟩

/-! ## Claim C4 -/

/-- C4 counterexample: the claim says the fixed per-category labels hold
"regardless of which response shape the backend produced", but when the
backend response already contains `rubric_scores`, `grade_answer` keeps the
backend's own `rubric_labels` (and values) unchecked: grading an "Opener"
answer against a response carrying `rubric_labels: ["Wrong"]` and an
out-of-range dimension value 99 returns them verbatim. -/
theorem c4_counterexample :
    gradeAnswer ((fun _ _ _ _ _ => .ok ("\x7b\"rubric_scores\": " ++
      "\x7b\"narrative_arc\": 99\x7d, \"rubric_labels\": [\"Wrong\"]\x7d"))
      : LlmCall PyErr) "groq" "Q" "ans" "Opener" "" ""
      = .ok (JVal.jobj
        [("rubric_scores", JVal.jobj [("narrative_arc", JVal.jnum "99")]),
         ("rubric_labels", JVal.jarr [JVal.jstr "Wrong"]),
         ("model_answer_breakdown", JVal.jstr defaultBreakdown),
         ("star_scores", JVal.jobj [("situation", JVal.jnum "99"),
           ("task", j15), ("action", j15), ("result", j15)])]) ∧
    JVal.jarr [JVal.jstr "Wrong"] ≠ fixedLabels (categoryType "Opener") := by
  constructor
  · rfl
  · intro hcontra
    rw [show fixedLabels (categoryType "Opener")
      = JVal.jarr [JVal.jstr "Narrative Arc", JVal.jstr "Relevant Experience",
        JVal.jstr "Motivation & Fit", JVal.jstr "Delivery & Confidence"]
      from rfl] at hcontra
    injection hcontra with hcontra
    simp at hcontra

/-- C4 (amended): whenever the parsed backend response lacks
`rubric_scores` (the legacy migration path), every record `grade_answer`
returns carries exactly the fixed per-category-type `rubric_labels`
(Narrative Arc/… for Opener, Role Relevance/… for Closing,
Situation/Task/Action/Result otherwise), and in the Opener and Closing
cases the migrated `rubric_scores` carries exactly the corresponding four
snake_case keys; when the response already supplies `rubric_scores`, its
labels and values are kept as-is, and no 0–25 range check is performed
anywhere. -/
theorem c4_rubric_labels {ε : Type} (call : LlmCall ε)
    (provider question userAnswer category resumeText jdText : String)
    (out : JVal)
    (h : gradeAnswer call provider question userAnswer category resumeText
      jdText = .ok out) :
    ∃ raw r0,
      callWithRetry call
        (gradePrompt (gradePieces (categoryType category)).2.2.2
          (gradePieces (categoryType category)).2.1
          (gradePieces (categoryType category)).2.2.1 question category
          userAnswer
          (if provider = "ollama" then ollamaTrim resumeText "grade"
           else trimText resumeText 1000)
          (if provider = "ollama" then ollamaTrim jdText "grade"
           else trimText jdText 600))
        (gradePieces (categoryType category)).1 (18 / 25)
        (if provider = "ollama" then ollamaTokens "grade" else 1400) 3
        = .ok raw ∧
      ejCore raw.data = some (.jobj r0) ∧
      normalizeGrade (categoryType category) (.jobj r0) = some out ∧
      (jHasKey r0 "rubric_scores" = false →
        ∃ out', out = .jobj out' ∧
          jLookup out' "rubric_labels"
            = some (fixedLabels (categoryType category)) ∧
          (categoryType category = "opener" →
            ∃ sc, jLookup out' "rubric_scores" = some (.jobj sc) ∧
              sc.map Prod.fst = ["narrative_arc", "relevant_experience",
                "motivation_fit", "delivery_confidence"]) ∧
          (categoryType category = "closing" →
            ∃ sc, jLookup out' "rubric_scores" = some (.jobj sc) ∧
              sc.map Prod.fst = ["role_relevance", "company_research",
                "strategic_thinking", "interview_intelligence"])) := by
  obtain ⟨raw, r0, hcall, hej, hnorm⟩ :=
    gradeAnswer_inv call provider question userAnswer category resumeText
      jdText out h
  refine ⟨raw, r0, hcall, hej, hnorm, fun h0 => ?_⟩
  obtain ⟨out', ho, _, _, _, hmig⟩ :=
    normalizeGrade_spec (categoryType category) r0 out hnorm
  obtain ⟨hlabels, hop, hcl⟩ := hmig h0
  exact ⟨out', ho, hlabels, hop, hcl⟩

/-- C4 witness: the amended theorem applied to a concrete legacy-shaped
backend response for category "Opener". -/
theorem c4_rubric_labels_witness :
    ∃ out', (JVal.jobj
        [("score", JVal.jnum "80"),
         ("rubric_scores", JVal.jobj [("narrative_arc", JVal.jnum "20"),
           ("relevant_experience", JVal.jnum "18"),
           ("motivation_fit", JVal.jnum "19"),
           ("delivery_confidence", JVal.jnum "17")]),
         ("rubric_labels", JVal.jarr [JVal.jstr "Narrative Arc",
           JVal.jstr "Relevant Experience", JVal.jstr "Motivation & Fit",
           JVal.jstr "Delivery & Confidence"]),
         ("model_answer_breakdown", JVal.jstr defaultBreakdown),
         ("star_scores", JVal.jobj [("situation", JVal.jnum "20"),
           ("task", JVal.jnum "18"), ("action", JVal.jnum "19"),
           ("result", JVal.jnum "17")])])
      = JVal.jobj out' ∧
    jLookup out' "rubric_labels" = some (fixedLabels (categoryType "Opener")) := by
  obtain ⟨raw, r0, hcall, hej, _, hmig⟩ :=
    c4_rubric_labels ((fun _ _ _ _ _ => .ok ("\x7b\"score\": 80, " ++
      "\"star_scores\": \x7b\"situation\": 20, \"task\": 18, " ++
      "\"action\": 19, \"result\": 17\x7d\x7d")) : LlmCall PyErr)
      "groq" "Q" "ans" "Opener" "" "" _ rfl
  rw [show callWithRetry ((fun _ _ _ _ _ => .ok ("\x7b\"score\": 80, " ++
      "\"star_scores\": \x7b\"situation\": 20, \"task\": 18, " ++
      "\"action\": 19, \"result\": 17\x7d\x7d")) : LlmCall PyErr)
        (gradePrompt (gradePieces (categoryType "Opener")).2.2.2
          (gradePieces (categoryType "Opener")).2.1
          (gradePieces (categoryType "Opener")).2.2.1 "Q" "Opener"
          "ans"
          (if "groq" = "ollama" then ollamaTrim "" "grade"
           else trimText "" 1000)
          (if "groq" = "ollama" then ollamaTrim "" "grade"
           else trimText "" 600))
        (gradePieces (categoryType "Opener")).1 (18 / 25)
        (if "groq" = "ollama" then ollamaTokens "grade" else 1400) 3
      = .ok ("\x7b\"score\": 80, " ++
      "\"star_scores\": \x7b\"situation\": 20, \"task\": 18, " ++
      "\"action\": 19, \"result\": 17\x7d\x7d") from rfl] at hcall
  injection hcall with hcall
  subst hcall
  rw [show ejCore ("\x7b\"score\": 80, " ++
      "\"star_scores\": \x7b\"situation\": 20, \"task\": 18, " ++
      "\"action\": 19, \"result\": 17\x7d\x7d" : String).data
      = some (JVal.jobj [("score", JVal.jnum "80"),
          ("star_scores", JVal.jobj [("situation", JVal.jnum "20"),
            ("task", JVal.jnum "18"), ("action", JVal.jnum "19"),
            ("result", JVal.jnum "17")])]) from rfl] at hej
  injection hej with hej
  injection hej with hej
  subst hej
  obtain ⟨out', ho, hlabels, _, _⟩ := hmig rfl
  exact ⟨out', ho, hlabels⟩

/-! ## Claim C5 -/

/-- C5 (confirmed): every record `grade_answer` returns contains
`rubric_scores` and `rubric_labels`, and — whenever the parsed backend
response did not itself supply `star_scores` — a `star_scores`
compatibility mapping with exactly the keys situation, task, action,
result, obtained by positionally mapping the rubric values (padding with
15 when fewer than 4 are present, as `starCompat` does). -/
theorem c5_star_scores_compat {ε : Type} (call : LlmCall ε)
    (provider question userAnswer category resumeText jdText : String)
    (out : JVal)
    (h : gradeAnswer call provider question userAnswer category resumeText
      jdText = .ok out) :
    ∃ raw r0,
      callWithRetry call
        (gradePrompt (gradePieces (categoryType category)).2.2.2
          (gradePieces (categoryType category)).2.1
          (gradePieces (categoryType category)).2.2.1 question category
          userAnswer
          (if provider = "ollama" then ollamaTrim resumeText "grade"
           else trimText resumeText 1000)
          (if provider = "ollama" then ollamaTrim jdText "grade"
           else trimText jdText 600))
        (gradePieces (categoryType category)).1 (18 / 25)
        (if provider = "ollama" then ollamaTokens "grade" else 1400) 3
        = .ok raw ∧
      ejCore raw.data = some (.jobj r0) ∧
      normalizeGrade (categoryType category) (.jobj r0) = some out ∧
      ∃ out', out = .jobj out' ∧
        jHasKey out' "rubric_scores" = true ∧
        jHasKey out' "rubric_labels" = true ∧
        (jHasKey r0 "star_scores" = false →
          ∃ sc, jLookup out' "rubric_scores" = some (.jobj sc) ∧
            jLookup out' "star_scores" = some (starCompat sc)) := by
  obtain ⟨raw, r0, hcall, hej, hnorm⟩ :=
    gradeAnswer_inv call provider question userAnswer category resumeText
      jdText out h
  obtain ⟨out', ho, hks, hkl, hstar, _⟩ :=
    normalizeGrade_spec (categoryType category) r0 out hnorm
  exact ⟨raw, r0, hcall, hej, hnorm, out', ho, hks, hkl, hstar⟩

/-- C5 witness: the theorem applied to a backend response that carries a
two-key `rubric_scores` and no `star_scores`; the returned record contains
both rubric fields and the positionally rebuilt `star_scores` (padded with
15). -/
theorem c5_star_scores_compat_witness :
    ∃ out',
      gradeAnswer ((fun _ _ _ _ _ => .ok ("\x7b\"rubric_scores\": " ++
        "\x7b\"a\": 1, \"b\": 2\x7d\x7d")) : LlmCall PyErr)
        "groq" "Q" "ans" "Behavioral" "" "" = .ok (JVal.jobj out') ∧
      jHasKey out' "rubric_scores" = true ∧
      jHasKey out' "rubric_labels" = true ∧
      jLookup out' "star_scores" = some (starCompat [("a", JVal.jnum "1"),
        ("b", JVal.jnum "2")]) := by
  obtain ⟨raw, r0, hcall, hej, _, out', ho, hks, hkl, hstar⟩ :=
    c5_star_scores_compat ((fun _ _ _ _ _ => .ok ("\x7b\"rubric_scores\": " ++
      "\x7b\"a\": 1, \"b\": 2\x7d\x7d")) : LlmCall PyErr)
      "groq" "Q" "ans" "Behavioral" "" ""
      (JVal.jobj
        [("rubric_scores", JVal.jobj [("a", JVal.jnum "1"),
           ("b", JVal.jnum "2")]),
         ("rubric_labels", JVal.jarr [JVal.jstr "a", JVal.jstr "b"]),
         ("model_answer_breakdown", JVal.jstr defaultBreakdown),
         ("star_scores", JVal.jobj [("situation", JVal.jnum "1"),
           ("task", JVal.jnum "2"), ("action", j15), ("result", j15)])])
      rfl
  injection ho with hoe
  subst hoe
  have hr0 : r0 = [("rubric_scores", JVal.jobj [("a", JVal.jnum "1"),
      ("b", JVal.jnum "2")])] := by
    have hje : some (JVal.jobj [("rubric_scores", JVal.jobj
        [("a", JVal.jnum "1"), ("b", JVal.jnum "2")])])
        = some (JVal.jobj r0) := by
      rw [← hej]
      rw [show raw = ("\x7b\"rubric_scores\": " ++
        "\x7b\"a\": 1, \"b\": 2\x7d\x7d" : String) from by
          have hc2 := hcall
          rw [show callWithRetry ((fun _ _ _ _ _ =>
              .ok ("\x7b\"rubric_scores\": " ++
                "\x7b\"a\": 1, \"b\": 2\x7d\x7d")) : LlmCall PyErr)
              (gradePrompt (gradePieces (categoryType "Behavioral")).2.2.2
                (gradePieces (categoryType "Behavioral")).2.1
                (gradePieces (categoryType "Behavioral")).2.2.1 "Q"
                "Behavioral" "ans"
                (if ("groq" : String) = "ollama" then ollamaTrim "" "grade"
                 else trimText "" 1000)
                (if ("groq" : String) = "ollama" then ollamaTrim "" "grade"
                 else trimText "" 600))
              (gradePieces (categoryType "Behavioral")).1 (18 / 25)
              (if ("groq" : String) = "ollama" then ollamaTokens "grade"
               else 1400) 3
            = .ok ("\x7b\"rubric_scores\": " ++
              "\x7b\"a\": 1, \"b\": 2\x7d\x7d") from rfl] at hc2
          injection hc2 with hc2
          exact hc2.symm]
      rfl
    injection hje with hje
    injection hje with hje
    exact hje.symm
  subst hr0
  obtain ⟨sc, hsc, hstar2⟩ := hstar rfl
  have hscv : some (JVal.jobj [("a", JVal.jnum "1"), ("b", JVal.jnum "2")])
      = some (JVal.jobj sc) := by
    rw [← hsc]
    rfl
  injection hscv with hscv
  injection hscv with hscv
  subst hscv
  exact ⟨_, rfl, hks, hkl, hstar2⟩

/-! ## Scanner composition and inertness lemmas -/

theorem foldSt_append (oc cc : Char) (st : EjSt) (a b : List Char) :
    foldSt oc cc st (a ++ b) = foldSt oc cc (foldSt oc cc st a) b := by
  simp [foldSt, List.foldl_append]

theorem repFold_append (st : RepSt) (a b : List Char) :
    repFold st (a ++ b) = repFold (repFold st a) b := by
  simp [repFold, List.foldl_append]

theorem brkIdx_append_some (oc cc : Char) (a : List Char) :
    ∀ (st : EjSt) (b : List Char) (i : Nat), brkIdx oc cc st a = some i →
      brkIdx oc cc st (a ++ b) = some i := by
  induction a with
  | nil => intro st b i h; exact absurd h (by simp [brkIdx])
  | cons c a' ih =>
    intro st b i h
    rw [brkIdx] at h
    rw [List.cons_append, brkIdx]
    split at h
    · rename_i hfire
      rw [if_pos hfire]
      exact h
    · rename_i hfire
      rw [if_neg hfire]
      rcases ho : brkIdx oc cc (ejProc oc cc st c).1 a' with _ | j
      · rw [ho] at h; exact absurd h (by simp)
      · rw [ho] at h
        rw [ih _ _ _ ho]
        exact h

theorem brkIdx_append_none (oc cc : Char) (a : List Char) :
    ∀ (st : EjSt) (b : List Char), brkIdx oc cc st a = none →
      brkIdx oc cc st (a ++ b)
        = (brkIdx oc cc (foldSt oc cc st a) b).map (· + a.length) := by
  induction a with
  | nil =>
    intro st b _
    show brkIdx oc cc st b = (brkIdx oc cc st b).map (· + 0)
    rcases brkIdx oc cc st b with _ | j <;> simp
  | cons c a' ih =>
    intro st b h
    rw [brkIdx] at h
    rw [List.cons_append, brkIdx]
    split at h
    · exact absurd h (by simp)
    · rename_i hfire
      rw [if_neg hfire]
      have ha' : brkIdx oc cc (ejProc oc cc st c).1 a' = none := by
        rcases ho : brkIdx oc cc (ejProc oc cc st c).1 a' with _ | j
        · rfl
        · rw [ho] at h; exact absurd h (by simp)
      rw [ih _ _ ha']
      have hfold : foldSt oc cc st (c :: a')
          = foldSt oc cc (ejProc oc cc st c).1 a' := rfl
      rw [hfold]
      rcases brkIdx oc cc (foldSt oc cc (ejProc oc cc st c).1 a') b with _ | j
      · simp
      · simp [List.length_cons]
        omega

/-- An inert character leaves the `_ej` scanner state unchanged and cannot
fire the break. -/
theorem ejProc_inert (oc cc : Char) (st : EjSt) (c : Char)
    (hs : st.inStr = false) (he : st.esc = false)
    (h1 : c ≠ qt) (h3 : c ≠ oc) (h4 : c ≠ cc) :
    ejProc oc cc st c = (st, false) := by
  rw [ejProc, if_neg (by simp [he]), if_neg (by simp [hs]), if_neg h1,
    if_neg (by simp [hs]), if_neg h3, if_neg h4]

theorem foldSt_inert (oc cc : Char) (a : List Char)
    (h : ∀ c ∈ a, c ≠ qt ∧ c ≠ oc ∧ c ≠ cc) (d : Int) :
    foldSt oc cc ⟨d, false, false⟩ a = ⟨d, false, false⟩ := by
  induction a with
  | nil => rfl
  | cons c a' ih =>
    obtain ⟨h1, h3, h4⟩ := h c (by simp)
    show foldSt oc cc (ejProc oc cc ⟨d, false, false⟩ c).1 a' = _
    rw [ejProc_inert _ _ _ _ rfl rfl h1 h3 h4]
    exact ih (fun c' hc' => h c' (by simp [hc']))

theorem brkIdx_inert (oc cc : Char) (a : List Char)
    (h : ∀ c ∈ a, c ≠ qt ∧ c ≠ oc ∧ c ≠ cc) (d : Int) :
    brkIdx oc cc ⟨d, false, false⟩ a = none := by
  induction a with
  | nil => rfl
  | cons c a' ih =>
    obtain ⟨h1, h3, h4⟩ := h c (by simp)
    rw [brkIdx, ejProc_inert _ _ _ _ rfl rfl h1 h3 h4]
    simp only [if_neg (by simp : ¬ ((⟨d, false, false⟩ : EjSt), false).2 = true)]
    rw [ih (fun c' hc' => h c' (by simp [hc']))]
    rfl

theorem repProc_inert (st : RepSt) (c : Char)
    (hs : st.inStr = false) (he : st.esc = false) (h : InertR c) :
    repProc st c = st := by
  obtain ⟨h1, h2, h3, h4, h5, h6⟩ := h
  rw [repProc, if_neg (by simp [he]), if_neg h2, if_neg h1,
    if_neg (by simp [hs]), if_neg h3, if_neg h4, if_neg h5, if_neg h6]

theorem repFold_inert (a : List Char) (h : ∀ c ∈ a, InertR c)
    (db dk : Int) :
    repFold ⟨false, false, db, dk⟩ a = ⟨false, false, db, dk⟩ := by
  induction a with
  | nil => rfl
  | cons c a' ih =>
    show repFold (repProc ⟨false, false, db, dk⟩ c) a' = _
    rw [repProc_inert _ _ rfl rfl (h c (by simp))]
    exact ih (fun c' hc' => h c' (by simp [hc']))

/-- A run of inert characters is scan-neutral. -/
theorem scanNeutral_plain (a : List Char) (h : ∀ c ∈ a, InertR c) :
    ScanNeutral a := by
  have h2 : ∀ c ∈ a, c ≠ qt ∧ c ≠ lbr ∧ c ≠ rbr := by
    intro c hc; obtain ⟨x1, _, x3, x4, _, _⟩ := h c hc; exact ⟨x1, x3, x4⟩
  have h3 : ∀ c ∈ a, c ≠ qt ∧ c ≠ lbk ∧ c ≠ rbk := by
    intro c hc; obtain ⟨x1, _, _, _, x5, x6⟩ := h c hc; exact ⟨x1, x5, x6⟩
  exact ⟨foldSt_inert _ _ _ h2, fun d _ => brkIdx_inert _ _ _ h2 d,
    foldSt_inert _ _ _ h3, fun d _ => brkIdx_inert _ _ _ h3 d,
    repFold_inert _ h⟩

theorem scanNeutral_append (a b : List Char) (ha : ScanNeutral a)
    (hb : ScanNeutral b) : ScanNeutral (a ++ b) := by
  obtain ⟨a1, a2, a3, a4, a5⟩ := ha
  obtain ⟨b1, b2, b3, b4, b5⟩ := hb
  refine ⟨?_, ?_, ?_, ?_, ?_⟩
  · intro d; rw [foldSt_append, a1, b1]
  · intro d hd
    rw [brkIdx_append_none _ _ _ _ _ (a2 d hd), a1, b2 d hd]
    rfl
  · intro d; rw [foldSt_append, a3, b3]
  · intro d hd
    rw [brkIdx_append_none _ _ _ _ _ (a4 d hd), a3, b4 d hd]
    rfl
  · intro db dk; rw [repFold_append, a5, b5]

/-- Whitespace characters are inert. -/
theorem ws_inertR (c : Char) (h : c.isWhitespace = true) : InertR c := by
  have hc : c = ' ' ∨ c = '\t' ∨ c = '\r' ∨ c = '\n' := by
    simpa [Char.isWhitespace, or_assoc] using h
  rcases hc with h | h | h | h <;> subst h <;>
    exact ⟨by decide, by decide, by decide, by decide, by decide, by decide⟩

/-- A number character is inert, non-whitespace and not a comma. -/
theorem numChar_inert (c : Char) (h : numChar c = true) :
    InertR c ∧ ¬ c.isWhitespace ∧ c ≠ commaCh := by
  have hne : ∀ x : Char, numChar x = false → c ≠ x := by
    intro x hx heq
    rw [heq, hx] at h
    exact absurd h (by simp)
  refine ⟨⟨hne _ (by decide), hne _ (by decide), hne _ (by decide),
    hne _ (by decide), hne _ (by decide), hne _ (by decide)⟩, ?_, hne _ (by decide)⟩
  intro hw
  rcases (by simpa [Char.isWhitespace, or_assoc] using hw :
    c = ' ' ∨ c = '\t' ∨ c = '\r' ∨ c = '\n') with h' | h' | h' | h' <;>
    rw [h'] at h <;> exact absurd h (by decide)

/-! ## String-literal scan lemmas -/

theorem foldSt_cons (oc cc : Char) (st : EjSt) (c : Char) (rest : List Char) :
    foldSt oc cc st (c :: rest) = foldSt oc cc (ejProc oc cc st c).1 rest := rfl

theorem repFold_cons (st : RepSt) (c : Char) (rest : List Char) :
    repFold st (c :: rest) = repFold (repProc st c) rest := rfl

theorem brkIdx_cons_nofire (oc cc : Char) (st : EjSt) (c : Char)
    (rest : List Char) (h : (ejProc oc cc st c).2 = false) :
    brkIdx oc cc st (c :: rest)
      = (brkIdx oc cc (ejProc oc cc st c).1 rest).map (· + 1) := by
  rw [brkIdx, if_neg (by simp [h])]

theorem ejProc_qt (oc cc : Char) (st : EjSt) (he : st.esc = false) :
    ejProc oc cc st qt = ({ st with inStr := !st.inStr }, false) := by
  rw [ejProc, if_neg (by simp [he]),
    if_neg (fun hx => absurd hx.1 (by decide)), if_pos rfl]

theorem ejProc_esc (oc cc : Char) (st : EjSt) (c : Char)
    (he : st.esc = true) : ejProc oc cc st c = ({ st with esc := false }, false) := by
  rw [ejProc, if_pos (by simp [he])]

theorem ejProc_bslash_inStr (oc cc : Char) (st : EjSt)
    (hs : st.inStr = true) (he : st.esc = false) :
    ejProc oc cc st bslash = ({ st with esc := true }, false) := by
  rw [ejProc, if_neg (by simp [he]), if_pos ⟨rfl, hs⟩]

theorem ejProc_inStr (oc cc : Char) (st : EjSt) (c : Char)
    (hs : st.inStr = true) (he : st.esc = false)
    (h1 : c ≠ qt) (h2 : c ≠ bslash) : ejProc oc cc st c = (st, false) := by
  rw [ejProc, if_neg (by simp [he]), if_neg (fun hx => h2 hx.1), if_neg h1,
    if_pos (by simp [hs])]

theorem repProc_qt (st : RepSt) (he : st.esc = false) :
    repProc st qt = { st with inStr := !st.inStr } := by
  rw [repProc, if_neg (by simp [he]), if_neg (by decide : ¬ qt = bslash),
    if_pos rfl]

theorem repProc_esc (st : RepSt) (c : Char) (he : st.esc = true) :
    repProc st c = { st with esc := false } := by
  rw [repProc, if_pos (by simp [he])]

theorem repProc_bslash (st : RepSt) (he : st.esc = false) :
    repProc st bslash = { st with esc := true } := by
  rw [repProc, if_neg (by simp [he]), if_pos rfl]

theorem repProc_inStr (st : RepSt) (c : Char) (hs : st.inStr = true)
    (he : st.esc = false) (h1 : c ≠ qt) (h2 : c ≠ bslash) :
    repProc st c = st := by
  rw [repProc, if_neg (by simp [he]), if_neg h2, if_neg h1,
    if_pos (by simp [hs])]

/-- Decomposition and scan behaviour of a parsed string body: the consumed
text is the body plus the closing quote; scanned from an in-string state it
returns to the not-in-string state without ever firing the break, for both
the `_ej` and the repair scanners. -/
theorem strBody_scan (n : Nat) : ∀ cs b r, cs.length ≤ n →
    parseStrBody cs = some (b, r) →
    cs = b ++ qt :: r ∧
    (∀ (oc cc : Char) (st : EjSt), st.inStr = true → st.esc = false →
      foldSt oc cc st (b ++ [qt]) = { st with inStr := false } ∧
      brkIdx oc cc st (b ++ [qt]) = none) ∧
    (∀ (rs : RepSt), rs.inStr = true → rs.esc = false →
      repFold rs (b ++ [qt]) = { rs with inStr := false }) := by
  induction n with
  | zero =>
    intro cs b r hlen h
    rw [List.length_eq_zero.mp (Nat.le_zero.mp hlen)] at h
    exact absurd h (by simp [parseStrBody])
  | succ m ih =>
    intro cs b r hlen h
    have base :
        (∀ (oc cc : Char) (st : EjSt), st.inStr = true → st.esc = false →
          foldSt oc cc st ([] ++ [qt]) = { st with inStr := false } ∧
          brkIdx oc cc st ([] ++ [qt]) = none) ∧
        (∀ (rs : RepSt), rs.inStr = true → rs.esc = false →
          repFold rs ([] ++ [qt]) = { rs with inStr := false }) := by
      constructor
      · intro oc cc st hs he
        obtain ⟨sd, si, se⟩ := st
        replace hs : si = true := hs
        replace he : se = false := he
        subst hs; subst he
        constructor
        · rw [List.nil_append, foldSt_cons, ejProc_qt _ _ _ rfl]
          rfl
        · rw [List.nil_append, brkIdx_cons_nofire _ _ _ _ _
            (by rw [ejProc_qt _ _ _ rfl])]
          rfl
      · intro rs hs he
        obtain ⟨ri, re, rb, rk⟩ := rs
        replace hs : ri = true := hs
        replace he : re = false := he
        subst hs; subst he
        rw [List.nil_append, repFold_cons, repProc_qt _ rfl]
        rfl
    match cs with
    | [] => exact absurd h (by simp [parseStrBody])
    | [c] =>
      rw [parseStrBody] at h
      split at h
      · rename_i hq
        subst hq
        injection h with h
        injection h with hb hr
        subst hb; subst hr
        exact ⟨rfl, base.1, base.2⟩
      · exact absurd h (by simp)
    | c :: d :: cs' =>
      rw [parseStrBody] at h
      split at h
      · rename_i hq
        subst hq
        injection h with h
        injection h with hb hr
        subst hb; subst hr
        exact ⟨rfl, base.1, base.2⟩
      · split at h
        · -- escape pair
          rename_i hq hbs
          subst hbs
          rcases hrec : parseStrBody cs' with _ | br
          · rw [hrec] at h; exact absurd h (by simp)
          · obtain ⟨b', r'⟩ := br
            rw [hrec] at h
            simp only [Option.map_some'] at h
            injection h with h
            injection h with hb hr
            subst hb; subst hr
            obtain ⟨hdec, hscan, hrep⟩ := ih cs' b' r'
              (by simp only [List.length_cons] at hlen; omega) hrec
            refine ⟨by rw [List.cons_append, List.cons_append, ← hdec], ?_, ?_⟩
            · intro oc cc st hs he
              obtain ⟨sd, si, se⟩ := st
              replace hs : si = true := hs
              replace he : se = false := he
              subst hs; subst he
              obtain ⟨hf, hbrk⟩ := hscan oc cc ⟨sd, true, false⟩ rfl rfl
              have h1 : (ejProc oc cc ⟨sd, true, false⟩ bslash).1
                  = (⟨sd, true, true⟩ : EjSt) := by
                rw [ejProc_bslash_inStr _ _ _ rfl rfl]
              have h2 : (ejProc oc cc ⟨sd, true, true⟩ d).1
                  = (⟨sd, true, false⟩ : EjSt) := by
                rw [ejProc_esc _ _ _ d rfl]
              constructor
              · rw [List.cons_append, List.cons_append, foldSt_cons, h1,
                  foldSt_cons, h2, hf]
              · rw [List.cons_append, List.cons_append,
                  brkIdx_cons_nofire _ _ _ _ _
                    (by rw [ejProc_bslash_inStr _ _ _ rfl rfl]), h1,
                  brkIdx_cons_nofire _ _ _ _ _ (by rw [ejProc_esc _ _ _ d rfl]),
                  h2, hbrk]
                rfl
            · intro rs hs he
              obtain ⟨ri, re, rb, rk⟩ := rs
              replace hs : ri = true := hs
              replace he : re = false := he
              subst hs; subst he
              rw [List.cons_append, List.cons_append, repFold_cons,
                repProc_bslash _ rfl, repFold_cons, repProc_esc _ d rfl]
              exact hrep ⟨true, false, rb, rk⟩ rfl rfl
        · -- ordinary in-string character
          rename_i hq hbs
          rcases hrec : parseStrBody (d :: cs') with _ | br
          · rw [hrec] at h; exact absurd h (by simp)
          · obtain ⟨b', r'⟩ := br
            rw [hrec] at h
            simp only [Option.map_some'] at h
            injection h with h
            injection h with hb hr
            subst hb; subst hr
            obtain ⟨hdec, hscan, hrep⟩ := ih (d :: cs') b' r'
              (by simp only [List.length_cons] at hlen ⊢; omega) hrec
            refine ⟨by rw [List.cons_append, ← hdec], ?_, ?_⟩
            · intro oc cc st hs he
              obtain ⟨sd, si, se⟩ := st
              replace hs : si = true := hs
              replace he : se = false := he
              subst hs; subst he
              obtain ⟨hf, hbrk⟩ := hscan oc cc ⟨sd, true, false⟩ rfl rfl
              have h1 : (ejProc oc cc ⟨sd, true, false⟩ c).1
                  = (⟨sd, true, false⟩ : EjSt) := by
                rw [ejProc_inStr _ _ _ _ rfl rfl hq hbs]
              constructor
              · rw [List.cons_append, foldSt_cons, h1, hf]
              · rw [List.cons_append, brkIdx_cons_nofire _ _ _ _ _
                  (by rw [ejProc_inStr _ _ _ _ rfl rfl hq hbs]), h1, hbrk]
                rfl
            · intro rs hs he
              obtain ⟨ri, re, rb, rk⟩ := rs
              replace hs : ri = true := hs
              replace he : re = false := he
              subst hs; subst he
              rw [List.cons_append, repFold_cons,
                repProc_inStr _ _ rfl rfl hq hbs]
              exact hrep ⟨true, false, rb, rk⟩ rfl rfl

theorem ejProc_open (oc cc : Char) (st : EjSt) (hs : st.inStr = false)
    (he : st.esc = false) (h1 : oc ≠ qt) :
    ejProc oc cc st oc = ({ st with depth := st.depth + 1 }, false) := by
  rw [ejProc, if_neg (by simp [he]), if_neg (by simp [hs]), if_neg h1,
    if_neg (by simp [hs]), if_pos rfl]

theorem ejProc_close (oc cc : Char) (st : EjSt) (hs : st.inStr = false)
    (he : st.esc = false) (h1 : cc ≠ qt) (ho : cc ≠ oc) :
    ejProc oc cc st cc
      = ({ st with depth := st.depth - 1 }, decide (st.depth - 1 = 0)) := by
  rw [ejProc, if_neg (by simp [he]), if_neg (by simp [hs]), if_neg h1,
    if_neg (by simp [hs]), if_neg ho, if_pos rfl]

theorem brkIdx_close (oc cc : Char) (d : Int) (rest : List Char)
    (h1 : cc ≠ qt) (ho : cc ≠ oc) :
    brkIdx oc cc ⟨d, false, false⟩ (cc :: rest)
      = if d = 1 then some 0
        else (brkIdx oc cc ⟨d - 1, false, false⟩ rest).map (· + 1) := by
  simp only [brkIdx, ejProc_close oc cc ⟨d, false, false⟩ rfl rfl h1 ho,
    decide_eq_true_eq]
  by_cases hd : d = 1
  · rw [if_pos (by omega), if_pos hd]
  · rw [if_neg (by omega), if_neg hd]

theorem brkIdx_open (oc cc : Char) (st : EjSt) (rest : List Char)
    (hs : st.inStr = false) (he : st.esc = false) (h1 : oc ≠ qt) :
    brkIdx oc cc st (oc :: rest)
      = (brkIdx oc cc { st with depth := st.depth + 1 } rest).map (· + 1) := by
  rw [brkIdx_cons_nofire _ _ _ _ _ (by rw [ejProc_open oc cc st hs he h1])]
  rw [show (ejProc oc cc st oc).1 = ({ st with depth := st.depth + 1 } : EjSt)
    from by rw [ejProc_open oc cc st hs he h1]]

theorem repProc_lbr (st : RepSt) (hs : st.inStr = false)
    (he : st.esc = false) :
    repProc st lbr = { st with dBrace := st.dBrace + 1 } := by
  rw [repProc, if_neg (by simp [he]), if_neg (by decide : ¬ lbr = bslash),
    if_neg (by decide : ¬ lbr = qt), if_neg (by simp [hs]), if_pos rfl]

theorem repProc_rbr (st : RepSt) (hs : st.inStr = false)
    (he : st.esc = false) :
    repProc st rbr = { st with dBrace := st.dBrace - 1 } := by
  rw [repProc, if_neg (by simp [he]), if_neg (by decide : ¬ rbr = bslash),
    if_neg (by decide : ¬ rbr = qt), if_neg (by simp [hs]),
    if_neg (by decide : ¬ rbr = lbr), if_pos rfl]

theorem repProc_lbk (st : RepSt) (hs : st.inStr = false)
    (he : st.esc = false) :
    repProc st lbk = { st with dBracket := st.dBracket + 1 } := by
  rw [repProc, if_neg (by simp [he]), if_neg (by decide : ¬ lbk = bslash),
    if_neg (by decide : ¬ lbk = qt), if_neg (by simp [hs]),
    if_neg (by decide : ¬ lbk = lbr), if_neg (by decide : ¬ lbk = rbr),
    if_pos rfl]

theorem repProc_rbk (st : RepSt) (hs : st.inStr = false)
    (he : st.esc = false) :
    repProc st rbk = { st with dBracket := st.dBracket - 1 } := by
  rw [repProc, if_neg (by simp [he]), if_neg (by decide : ¬ rbk = bslash),
    if_neg (by decide : ¬ rbk = qt), if_neg (by simp [hs]),
    if_neg (by decide : ¬ rbk = lbr), if_neg (by decide : ¬ rbk = rbr),
    if_neg (by decide : ¬ rbk = lbk), if_pos rfl]

/-- The full text of a string literal (opening quote, body, closing quote)
is scan-neutral for all three scanners. -/
theorem scanNeutral_str (cs b r : List Char)
    (h : parseStrBody cs = some (b, r)) : ScanNeutral (qt :: (b ++ [qt])) := by
  obtain ⟨-, hscan, hrep⟩ := strBody_scan cs.length cs b r le_rfl h
  refine ⟨?_, ?_, ?_, ?_, ?_⟩
  · intro d
    rw [foldSt_cons, ejProc_qt _ _ _ rfl]
    exact (hscan lbr rbr ⟨d, true, false⟩ rfl rfl).1
  · intro d _
    rw [brkIdx_cons_nofire _ _ _ _ _ (by rw [ejProc_qt _ _ _ rfl])]
    show (brkIdx lbr rbr ⟨d, true, false⟩ (b ++ [qt])).map (· + 1) = none
    rw [(hscan lbr rbr ⟨d, true, false⟩ rfl rfl).2]
    rfl
  · intro d
    rw [foldSt_cons, ejProc_qt _ _ _ rfl]
    exact (hscan lbk rbk ⟨d, true, false⟩ rfl rfl).1
  · intro d _
    rw [brkIdx_cons_nofire _ _ _ _ _ (by rw [ejProc_qt _ _ _ rfl])]
    show (brkIdx lbk rbk ⟨d, true, false⟩ (b ++ [qt])).map (· + 1) = none
    rw [(hscan lbk rbk ⟨d, true, false⟩ rfl rfl).2]
    rfl
  · intro db dk
    rw [repFold_cons, repProc_qt _ rfl]
    exact hrep ⟨true, false, db, dk⟩ rfl rfl

theorem getLastq_exists_mem (l : List Char) (h : l ≠ []) :
    ∃ x, l.getLast? = some x ∧ x ∈ l := by
  induction l with
  | nil => exact absurd rfl h
  | cons c t ih =>
    cases t with
    | nil => exact ⟨c, rfl, by simp⟩
    | cons d t2 =>
      obtain ⟨x, hx, hm⟩ := ih (by simp)
      exact ⟨x, by rw [List.getLast?_cons_cons]; exact hx, by simp [hm]⟩

theorem scanNeutral_ws (cs : List Char) :
    ScanNeutral (cs.takeWhile Char.isWhitespace) :=
  scanNeutral_plain _ (fun c hc => ws_inertR c (List.mem_takeWhile_imp hc))

theorem skipWs_decomp (cs : List Char) :
    cs = cs.takeWhile Char.isWhitespace ++ skipWs cs := by
  rw [skipWs, List.takeWhile_append_dropWhile]

theorem objClose_rbr : ObjClose [rbr] := by
  refine ⟨by simp, rfl, ?_, ?_, ?_, ?_, ?_, ?_⟩
  · intro d
    rw [foldSt_cons, ejProc_close lbr rbr _ rfl rfl (by decide) (by decide)]
    rfl
  · rw [brkIdx_close lbr rbr 1 [] (by decide) (by decide), if_pos rfl]
    rfl
  · intro d hd
    rw [brkIdx_close lbr rbr d [] (by decide) (by decide),
      if_neg (by omega)]
    rfl
  · intro d
    rw [foldSt_cons,
      ejProc_inert lbk rbk _ rbr rfl rfl (by decide) (by decide) (by decide)]
    rfl
  · intro d hd
    rw [brkIdx_cons_nofire _ _ _ _ _
      (by rw [ejProc_inert lbk rbk _ rbr rfl rfl (by decide) (by decide)
        (by decide)])]
    rfl
  · intro db dk
    rw [repFold_cons, repProc_rbr _ rfl rfl]
    rfl

theorem arrClose_rbk : ArrClose [rbk] := by
  refine ⟨by simp, rfl, ?_, ?_, ?_, ?_, ?_, ?_⟩
  · intro d
    rw [foldSt_cons, ejProc_close lbk rbk _ rfl rfl (by decide) (by decide)]
    rfl
  · rw [brkIdx_close lbk rbk 1 [] (by decide) (by decide), if_pos rfl]
    rfl
  · intro d hd
    rw [brkIdx_close lbk rbk d [] (by decide) (by decide),
      if_neg (by omega)]
    rfl
  · intro d
    rw [foldSt_cons,
      ejProc_inert lbr rbr _ rbk rfl rfl (by decide) (by decide) (by decide)]
    rfl
  · intro d hd
    rw [brkIdx_cons_nofire _ _ _ _ _
      (by rw [ejProc_inert lbr rbr _ rbk rfl rfl (by decide) (by decide)
        (by decide)])]
    rfl
  · intro db dk
    rw [repFold_cons, repProc_rbk _ rfl rfl]
    rfl

/-- Prepending scan-neutral text preserves the `ObjClose` property. -/
theorem objClose_extend (a mid : List Char) (ha : ScanNeutral a)
    (hm : ObjClose mid) : ObjClose (a ++ mid) := by
  obtain ⟨a1, a2, a3, a4, a5⟩ := ha
  obtain ⟨m0, mlast, m1, m2, m3, m4, m5, m6⟩ := hm
  have hmlen : 1 ≤ mid.length := List.length_pos.mpr m0
  refine ⟨by simp [m0], ?_, ?_, ?_, ?_, ?_, ?_, ?_⟩
  · rw [List.getLast?_append, mlast]
    rfl
  · intro d
    rw [foldSt_append, a1, m1]
  · rw [brkIdx_append_none _ _ _ _ _ (a2 1 (by norm_num)), a1, m2]
    simp only [Option.map_some', List.length_append]
    congr 1
    omega
  · intro d hd
    rw [brkIdx_append_none _ _ _ _ _ (a2 d (by omega)), a1, m3 d hd]
    rfl
  · intro d
    rw [foldSt_append, a3, m4]
  · intro d hd
    rw [brkIdx_append_none _ _ _ _ _ (a4 d hd), a3, m5 d hd]
    rfl
  · intro db dk
    rw [repFold_append, a5, m6]

/-- Prepending scan-neutral text preserves the `ArrClose` property. -/
theorem arrClose_extend (a mid : List Char) (ha : ScanNeutral a)
    (hm : ArrClose mid) : ArrClose (a ++ mid) := by
  obtain ⟨a1, a2, a3, a4, a5⟩ := ha
  obtain ⟨m0, mlast, m1, m2, m3, m4, m5, m6⟩ := hm
  have hmlen : 1 ≤ mid.length := List.length_pos.mpr m0
  refine ⟨by simp [m0], ?_, ?_, ?_, ?_, ?_, ?_, ?_⟩
  · rw [List.getLast?_append, mlast]
    rfl
  · intro d
    rw [foldSt_append, a3, m1]
  · rw [brkIdx_append_none _ _ _ _ _ (a4 1 (by norm_num)), a3, m2]
    simp only [Option.map_some', List.length_append]
    congr 1
    omega
  · intro d hd
    rw [brkIdx_append_none _ _ _ _ _ (a4 d (by omega)), a3, m3 d hd]
    rfl
  · intro d
    rw [foldSt_append, a1, m4]
  · intro d hd
    rw [brkIdx_append_none _ _ _ _ _ (a2 d hd), a1, m5 d hd]
    rfl
  · intro db dk
    rw [repFold_append, a5, m6]

theorem valPre_str (cs b r : List Char) (h : parseStrBody cs = some (b, r)) :
    ValPre (qt :: (b ++ [qt])) := by
  refine ⟨by simp, ⟨qt, rfl, Or.inl rfl⟩, ⟨qt, ?_, by decide, by decide⟩,
    scanNeutral_str cs b r h, ?_, ?_⟩
  · rw [show qt :: (b ++ [qt]) = (qt :: b) ++ [qt] from rfl,
      List.getLast?_concat]
  · intro hh
    exact absurd (Option.some.inj hh) (by decide)
  · intro hh
    exact absurd (Option.some.inj hh) (by decide)

theorem valPre_word (c : Char) (rest : List Char)
    (hc : c = 'n' ∨ c = 't' ∨ c = 'f')
    (hinert : ∀ x ∈ c :: rest, InertR x)
    (hlast : ∃ x, (c :: rest).getLast? = some x ∧ ¬ x.isWhitespace = true ∧
      x ≠ commaCh) : ValPre (c :: rest) := by
  refine ⟨by simp, ⟨c, rfl, ?_⟩, hlast, scanNeutral_plain _ hinert, ?_, ?_⟩
  · rcases hc with h | h | h <;> subst h
    · exact Or.inr (Or.inr (Or.inr (Or.inl rfl)))
    · exact Or.inr (Or.inr (Or.inr (Or.inr (Or.inl rfl))))
    · exact Or.inr (Or.inr (Or.inr (Or.inr (Or.inr (Or.inl rfl)))))
  · intro hh
    have hce := Option.some.inj hh
    rcases hc with h | h | h <;> subst h <;> exact absurd hce (by decide)
  · intro hh
    have hce := Option.some.inj hh
    rcases hc with h | h | h <;> subst h <;> exact absurd hce (by decide)

theorem valPre_num (c : Char) (t : List Char)
    (hnum : ∀ x ∈ c :: t, numChar x = true) : ValPre (c :: t) := by
  obtain ⟨x, hx, hxm⟩ := getLastq_exists_mem (c :: t) (by simp)
  have hlabel := numChar_inert _ (hnum _ hxm)
  refine ⟨by simp, ⟨c, rfl, ?_⟩, ⟨x, hx, hlabel.2.1, hlabel.2.2⟩,
    scanNeutral_plain _ (fun y hy => (numChar_inert y (hnum y hy)).1), ?_, ?_⟩
  · exact Or.inr (Or.inr (Or.inr (Or.inr (Or.inr (Or.inr
      (hnum c (by simp)))))))
  · intro hh
    rw [Option.some.inj hh] at hnum
    exact absurd (hnum lbr (by simp)) (by decide)
  · intro hh
    rw [Option.some.inj hh] at hnum
    exact absurd (hnum lbk (by simp)) (by decide)

theorem valPre_obj (ws0 mid : List Char)
    (hws : ∀ c ∈ ws0, c.isWhitespace = true) (hm : ObjClose mid) :
    ValPre (lbr :: (ws0 ++ mid)) := by
  have hn : ScanNeutral ws0 :=
    scanNeutral_plain _ (fun c hc => ws_inertR c (hws c hc))
  obtain ⟨n1, n2, n3, n4, n5⟩ := hn
  obtain ⟨m0, mlast, m1, m2, m3, m4, m5, m6⟩ := hm
  have hmlen : 1 ≤ mid.length := List.length_pos.mpr m0
  refine ⟨by simp, ⟨lbr, rfl, Or.inr (Or.inl rfl)⟩,
    ⟨rbr, ?_, by decide, by decide⟩, ⟨?_, ?_, ?_, ?_, ?_⟩, ?_, ?_⟩
  · rw [show lbr :: (ws0 ++ mid) = (lbr :: ws0) ++ mid from rfl,
      List.getLast?_append, mlast]
    rfl
  · intro d
    rw [foldSt_cons, ejProc_open lbr rbr _ rfl rfl (by decide)]
    show foldSt lbr rbr ⟨d + 1, false, false⟩ (ws0 ++ mid) = _
    rw [foldSt_append, n1, m1, show (d + 1 - 1 : Int) = d from by omega]
  · intro d hd
    rw [brkIdx_open lbr rbr _ _ rfl rfl (by decide)]
    show (brkIdx lbr rbr ⟨d + 1, false, false⟩ (ws0 ++ mid)).map (· + 1)
      = none
    rw [brkIdx_append_none _ _ _ _ _ (n2 (d + 1) (by omega)), n1,
      m3 (d + 1) (by omega)]
    rfl
  · intro d
    rw [foldSt_cons,
      ejProc_inert lbk rbk _ lbr rfl rfl (by decide) (by decide) (by decide)]
    show foldSt lbk rbk ⟨d, false, false⟩ (ws0 ++ mid) = _
    rw [foldSt_append, n3, m4]
  · intro d hd
    rw [brkIdx_cons_nofire _ _ _ _ _
      (by rw [ejProc_inert lbk rbk _ lbr rfl rfl (by decide) (by decide)
        (by decide)])]
    show (brkIdx lbk rbk ⟨d, false, false⟩ (ws0 ++ mid)).map (· + 1) = none
    rw [brkIdx_append_none _ _ _ _ _ (n4 d hd), n3, m5 d hd]
    rfl
  · intro db dk
    rw [repFold_cons, repProc_lbr _ rfl rfl]
    show repFold ⟨false, false, db + 1, dk⟩ (ws0 ++ mid) = _
    rw [repFold_append, n5, m6, show (db + 1 - 1 : Int) = db from by omega]
  · intro _ tail
    rw [List.cons_append, brkIdx_open lbr rbr _ _ rfl rfl (by decide)]
    show (brkIdx lbr rbr ⟨0 + 1, false, false⟩ ((ws0 ++ mid) ++ tail)).map
      (· + 1) = _
    rw [show ((0 : Int) + 1) = 1 from by omega, List.append_assoc,
      brkIdx_append_none _ _ _ _ _ (n2 1 (by norm_num)), n1,
      brkIdx_append_some _ _ _ _ _ _ m2]
    simp only [Option.map_some', List.length_cons, List.length_append]
    congr 1
    omega
  · intro hh
    exact absurd (Option.some.inj hh) (by decide)

theorem valPre_arr (ws0 mid : List Char)
    (hws : ∀ c ∈ ws0, c.isWhitespace = true) (hm : ArrClose mid) :
    ValPre (lbk :: (ws0 ++ mid)) := by
  have hn : ScanNeutral ws0 :=
    scanNeutral_plain _ (fun c hc => ws_inertR c (hws c hc))
  obtain ⟨n1, n2, n3, n4, n5⟩ := hn
  obtain ⟨m0, mlast, m1, m2, m3, m4, m5, m6⟩ := hm
  have hmlen : 1 ≤ mid.length := List.length_pos.mpr m0
  refine ⟨by simp, ⟨lbk, rfl, Or.inr (Or.inr (Or.inl rfl))⟩,
    ⟨rbk, ?_, by decide, by decide⟩, ⟨?_, ?_, ?_, ?_, ?_⟩, ?_, ?_⟩
  · rw [show lbk :: (ws0 ++ mid) = (lbk :: ws0) ++ mid from rfl,
      List.getLast?_append, mlast]
    rfl
  · intro d
    rw [foldSt_cons,
      ejProc_inert lbr rbr _ lbk rfl rfl (by decide) (by decide) (by decide)]
    show foldSt lbr rbr ⟨d, false, false⟩ (ws0 ++ mid) = _
    rw [foldSt_append, n1, m4]
  · intro d hd
    rw [brkIdx_cons_nofire _ _ _ _ _
      (by rw [ejProc_inert lbr rbr _ lbk rfl rfl (by decide) (by decide)
        (by decide)])]
    show (brkIdx lbr rbr ⟨d, false, false⟩ (ws0 ++ mid)).map (· + 1) = none
    rw [brkIdx_append_none _ _ _ _ _ (n2 d hd), n1, m5 d hd]
    rfl
  · intro d
    rw [foldSt_cons, ejProc_open lbk rbk _ rfl rfl (by decide)]
    show foldSt lbk rbk ⟨d + 1, false, false⟩ (ws0 ++ mid) = _
    rw [foldSt_append, n3, m1, show (d + 1 - 1 : Int) = d from by omega]
  · intro d hd
    rw [brkIdx_open lbk rbk _ _ rfl rfl (by decide)]
    show (brkIdx lbk rbk ⟨d + 1, false, false⟩ (ws0 ++ mid)).map (· + 1)
      = none
    rw [brkIdx_append_none _ _ _ _ _ (n4 (d + 1) (by omega)), n3,
      m3 (d + 1) (by omega)]
    rfl
  · intro db dk
    rw [repFold_cons, repProc_lbk _ rfl rfl]
    show repFold ⟨false, false, db, dk + 1⟩ (ws0 ++ mid) = _
    rw [repFold_append, n5, m6, show (dk + 1 - 1 : Int) = dk from by omega]
  · intro hh
    exact absurd (Option.some.inj hh) (by decide)
  · intro _ tail
    rw [List.cons_append, brkIdx_open lbk rbk _ _ rfl rfl (by decide)]
    show (brkIdx lbk rbk ⟨0 + 1, false, false⟩ ((ws0 ++ mid) ++ tail)).map
      (· + 1) = _
    rw [show ((0 : Int) + 1) = 1 from by omega, List.append_assoc,
      brkIdx_append_none _ _ _ _ _ (n4 1 (by norm_num)), n3,
      brkIdx_append_some _ _ _ _ _ _ m2]
    simp only [Option.map_some', List.length_cons, List.length_append]
    congr 1
    omega

theorem expectLit_decomp (lit cs r : List Char)
    (h : expectLit lit cs = some r) : cs = lit ++ r := by
  rw [expectLit] at h
  split at h
  · rename_i htake
    injection h with h
    subst h
    conv_lhs => rw [← List.take_append_drop lit.length cs]
    rw [htake]
  · exact absurd h (by simp)

theorem parseNum_decomp (cs lex r : List Char)
    (h : parseNum cs = some (lex, r)) :
    cs = lex ++ r ∧ lex ≠ [] ∧ ∀ x ∈ lex, numChar x = true := by
  simp only [parseNum] at h
  split at h
  · exact absurd h (by simp)
  · rename_i hne
    injection h with h
    injection h with hl hr
    subst hl
    subst hr
    refine ⟨?_, ?_, fun x hx => List.mem_takeWhile_imp hx⟩
    · rw [List.takeWhile_append_dropWhile]
    · intro hcon
      rw [hcon] at hne
      exact hne rfl

theorem inertR_forall (l : List Char)
    (h : ∀ x ∈ l, x ≠ qt ∧ x ≠ bslash ∧ x ≠ lbr ∧ x ≠ rbr ∧ x ≠ lbk ∧
      x ≠ rbk) : ∀ x ∈ l, InertR x := h

set_option maxHeartbeats 1000000 in
/-- Soundness of the shallow `json.loads` parser with respect to the
scanners: a successfully parsed value occupies a prefix of the input
satisfying the `ValPre` scan invariants, and a parsed object/array
interior (everything after the opener up to and including the matching
closer) satisfies `ObjClose`/`ArrClose`. -/
theorem parse_sound (f : Nat) :
    (∀ cs v r, parseVal f cs = some (v, r) →
      ∃ pre, cs = pre ++ r ∧ ValPre pre) ∧
    (∀ cs v r, parseObjRest f cs = some (v, r) →
      ∃ mid, cs = mid ++ r ∧ ObjClose mid) ∧
    (∀ acc cs v r, parseObjItems f acc cs = some (v, r) →
      ∃ mid, cs = mid ++ r ∧ ObjClose mid) ∧
    (∀ cs v r, parseArrRest f cs = some (v, r) →
      ∃ mid, cs = mid ++ r ∧ ArrClose mid) ∧
    (∀ acc cs v r, parseArrItems f acc cs = some (v, r) →
      ∃ mid, cs = mid ++ r ∧ ArrClose mid) := by
  induction f with
  | zero =>
    refine ⟨?_, ?_, ?_, ?_, ?_⟩
    · intro cs v r h; exact absurd h (by simp [parseVal])
    · intro cs v r h; exact absurd h (by simp [parseObjRest])
    · intro acc cs v r h; exact absurd h (by simp [parseObjItems])
    · intro cs v r h; exact absurd h (by simp [parseArrRest])
    · intro acc cs v r h; exact absurd h (by simp [parseArrItems])
  | succ f ih =>
    obtain ⟨ihV, ihOR, ihOI, ihAR, ihAI⟩ := ih
    refine ⟨?_, ?_, ?_, ?_, ?_⟩
    · -- parseVal
      intro cs v r h
      rcases cs with _ | ⟨c, cs'⟩
      · exact absurd h (by simp [parseVal])
      rw [parseVal] at h
      split at h
      · rename_i hq
        subst hq
        rcases hsb : parseStrBody cs' with _ | ⟨b, r1⟩
        · rw [hsb] at h
          exact absurd h (by simp)
        · rw [hsb] at h
          simp only [Option.map_some'] at h
          injection h with h
          injection h with hv hr
          subst hr
          obtain ⟨hdec, -, -⟩ := strBody_scan cs'.length cs' b r1 le_rfl hsb
          refine ⟨qt :: (b ++ [qt]), ?_, valPre_str cs' b r1 hsb⟩
          rw [hdec]
          simp
      split at h
      · rename_i hbr
        subst hbr
        obtain ⟨mid, hdec, hm⟩ := ihOR _ _ _ h
        refine ⟨lbr :: (cs'.takeWhile Char.isWhitespace ++ mid), ?_,
          valPre_obj _ _ (fun x hx => List.mem_takeWhile_imp hx) hm⟩
        rw [List.cons_append, List.append_assoc, ← hdec,
          ← skipWs_decomp cs']
      split at h
      · rename_i hbk
        subst hbk
        obtain ⟨mid, hdec, hm⟩ := ihAR _ _ _ h
        refine ⟨lbk :: (cs'.takeWhile Char.isWhitespace ++ mid), ?_,
          valPre_arr _ _ (fun x hx => List.mem_takeWhile_imp hx) hm⟩
        rw [List.cons_append, List.append_assoc, ← hdec,
          ← skipWs_decomp cs']
      split at h
      · rename_i hn
        subst hn
        rcases hel : expectLit ['u', 'l', 'l'] cs' with _ | r0
        · rw [hel] at h
          exact absurd h (by simp)
        · rw [hel] at h
          simp only [Option.map_some'] at h
          injection h with h
          injection h with hv hr
          subst hr
          refine ⟨['n', 'u', 'l', 'l'], ?_, valPre_word 'n' ['u', 'l', 'l']
            (Or.inl rfl) (inertR_forall _ (by decide))
            ⟨'l', by decide, by decide, by decide⟩⟩
          rw [expectLit_decomp _ _ _ hel]
          rfl
      split at h
      · rename_i ht
        subst ht
        rcases hel : expectLit ['r', 'u', 'e'] cs' with _ | r0
        · rw [hel] at h
          exact absurd h (by simp)
        · rw [hel] at h
          simp only [Option.map_some'] at h
          injection h with h
          injection h with hv hr
          subst hr
          refine ⟨['t', 'r', 'u', 'e'], ?_, valPre_word 't' ['r', 'u', 'e']
            (Or.inr (Or.inl rfl)) (inertR_forall _ (by decide))
            ⟨'e', by decide, by decide, by decide⟩⟩
          rw [expectLit_decomp _ _ _ hel]
          rfl
      split at h
      · rename_i hf
        subst hf
        rcases hel : expectLit ['a', 'l', 's', 'e'] cs' with _ | r0
        · rw [hel] at h
          exact absurd h (by simp)
        · rw [hel] at h
          simp only [Option.map_some'] at h
          injection h with h
          injection h with hv hr
          subst hr
          refine ⟨['f', 'a', 'l', 's', 'e'], ?_,
            valPre_word 'f' ['a', 'l', 's', 'e'] (Or.inr (Or.inr rfl))
            (inertR_forall _ (by decide))
            ⟨'e', by decide, by decide, by decide⟩⟩
          rw [expectLit_decomp _ _ _ hel]
          rfl
      split at h
      · rename_i hnc
        rcases hpn : parseNum (c :: cs') with _ | ⟨lex, r0⟩
        · rw [hpn] at h
          exact absurd h (by simp)
        · rw [hpn] at h
          simp only [Option.map_some'] at h
          injection h with h
          injection h with hv hr
          subst hr
          obtain ⟨hdec, hne, hmem⟩ := parseNum_decomp _ _ _ hpn
          obtain ⟨c0, t0, rfl⟩ := List.exists_cons_of_ne_nil hne
          exact ⟨c0 :: t0, hdec, valPre_num c0 t0 hmem⟩
      · exact absurd h (by simp)
    · -- parseObjRest
      intro cs v r h
      rcases cs with _ | ⟨c, cs'⟩
      · exact absurd h (by simp [parseObjRest])
      rw [parseObjRest] at h
      split at h
      · rename_i hc
        subst hc
        injection h with h
        injection h with hv hr
        subst hr
        exact ⟨[rbr], rfl, objClose_rbr⟩
      · exact ihOI _ _ _ _ h
    · -- parseObjItems
      intro acc cs v r h
      rcases cs with _ | ⟨c, cs'⟩
      · exact absurd h (by simp [parseObjItems])
      rw [parseObjItems] at h
      split at h
      · rename_i hq
        subst hq
        split at h
        · exact absurd h (by simp)
        · rename_i k r1 hsb
          split at h
          · exact absurd h (by simp)
          · rename_i c2 r3 hsw
            split at h
            · rename_i hcol
              subst hcol
              split at h
              · exact absurd h (by simp)
              · rename_i v1 r4 hpv
                split at h
                · exact absurd h (by simp)
                · rename_i c3 r6 hsw4
                  obtain ⟨hdec, -, -⟩ :=
                    strBody_scan cs'.length cs' k r1 le_rfl hsb
                  obtain ⟨pre, hpre, hvp⟩ := ihV _ _ _ hpv
                  have hstr : ScanNeutral (qt :: (k ++ [qt])) :=
                    scanNeutral_str cs' k r1 hsb
                  have hA : ScanNeutral ((((((qt :: (k ++ [qt])) ++
                      r1.takeWhile Char.isWhitespace) ++ [colonCh]) ++
                      r3.takeWhile Char.isWhitespace) ++ pre) ++
                      r4.takeWhile Char.isWhitespace) :=
                    scanNeutral_append _ _ (scanNeutral_append _ _
                      (scanNeutral_append _ _ (scanNeutral_append _ _
                        (scanNeutral_append _ _ hstr (scanNeutral_ws r1))
                        (scanNeutral_plain [colonCh]
                          (inertR_forall [colonCh] (by decide))))
                        (scanNeutral_ws r3)) hvp.2.2.2.1)
                      (scanNeutral_ws r4)
                  split at h
                  · rename_i hcm
                    subst hcm
                    obtain ⟨mid1, hmd, hm1⟩ := ihOI _ _ _ _ h
                    refine ⟨_, ?_, objClose_extend _ _ hA
                      (objClose_extend _ _ (scanNeutral_plain [commaCh]
                          (inertR_forall [commaCh] (by decide)))
                        (objClose_extend _ _ (scanNeutral_ws r6) hm1))⟩
                    rw [hdec]
                    simp only [List.append_assoc, List.cons_append,
                      List.singleton_append, List.nil_append]
                    rw [← hmd, ← skipWs_decomp r6, ← hsw4,
                      ← skipWs_decomp r4, ← hpre, ← skipWs_decomp r3,
                      ← hsw, ← skipWs_decomp r1]
                  split at h
                  · rename_i hrb
                    subst hrb
                    injection h with h
                    injection h with hv hr
                    subst hr
                    refine ⟨_, ?_, objClose_extend _ _ hA objClose_rbr⟩
                    rw [hdec]
                    simp only [List.append_assoc, List.cons_append,
                      List.singleton_append, List.nil_append]
                    rw [← hsw4, ← skipWs_decomp r4, ← hpre,
                      ← skipWs_decomp r3, ← hsw, ← skipWs_decomp r1]
                  · exact absurd h (by simp)
            · exact absurd h (by simp)
      · exact absurd h (by simp)
    · -- parseArrRest
      intro cs v r h
      rcases cs with _ | ⟨c, cs'⟩
      · exact absurd h (by simp [parseArrRest])
      rw [parseArrRest] at h
      split at h
      · rename_i hc
        subst hc
        injection h with h
        injection h with hv hr
        subst hr
        exact ⟨[rbk], rfl, arrClose_rbk⟩
      · exact ihAI _ _ _ _ h
    · -- parseArrItems
      intro acc cs v r h
      rw [parseArrItems] at h
      split at h
      · exact absurd h (by simp)
      · rename_i v1 r1 hpv
        split at h
        · exact absurd h (by simp)
        · rename_i c1 r3 hsw
          obtain ⟨pre, hpre, hvp⟩ := ihV _ _ _ hpv
          split at h
          · rename_i hcm
            subst hcm
            obtain ⟨mid1, hmd, hm1⟩ := ihAI _ _ _ _ h
            have hA : ScanNeutral (((pre ++
                r1.takeWhile Char.isWhitespace) ++ [commaCh]) ++
                r3.takeWhile Char.isWhitespace) :=
              scanNeutral_append _ _ (scanNeutral_append _ _
                (scanNeutral_append _ _ hvp.2.2.2.1 (scanNeutral_ws r1))
                (scanNeutral_plain [commaCh]
                  (inertR_forall [commaCh] (by decide))))
                (scanNeutral_ws r3)
            refine ⟨_, ?_, arrClose_extend _ _ hA hm1⟩
            rw [hpre]
            simp only [List.append_assoc, List.cons_append,
              List.singleton_append, List.nil_append]
            rw [← hmd, ← skipWs_decomp r3, ← hsw, ← skipWs_decomp r1]
          split at h
          · rename_i hrk
            subst hrk
            injection h with h
            injection h with hv hr
            subst hr
            have hA : ScanNeutral (pre ++
                r1.takeWhile Char.isWhitespace) :=
              scanNeutral_append _ _ hvp.2.2.2.1 (scanNeutral_ws r1)
            refine ⟨_, ?_, arrClose_extend _ _ hA arrClose_rbk⟩
            rw [hpre]
            simp only [List.append_assoc, List.cons_append,
              List.singleton_append, List.nil_append]
            rw [← hsw, ← skipWs_decomp r1]
          · exact absurd h (by simp)

theorem rstrip_ne (s : List Char) (c : Char) (hl : s.getLast? = some c)
    (hw : c.isWhitespace = true) : rstripL s ≠ s := by
  intro he
  have hlen : (rstripL s).length = s.length := by rw [he]
  rw [rstripL] at hlen
  have hrev : s.reverse.head? = some c := by rw [List.head?_reverse, hl]
  rcases hr : s.reverse with _ | ⟨c0, t⟩
  · rw [hr] at hrev
    exact absurd hrev (by simp)
  · rw [hr] at hrev
    injection hrev with hc0
    subst hc0
    rw [hr, List.dropWhile_cons, if_pos hw, List.length_reverse] at hlen
    have hsub : List.Sublist (t.dropWhile Char.isWhitespace) t :=
      List.dropWhile_sublist _
    have hle := hsub.length_le
    have hslen : s.length = t.length + 1 := by
      rw [← List.length_reverse s, hr]
      rfl
    omega

/-- C6 counterexample: `"\x7b\x7d "` (an object followed by a space)
already parses as JSON, yet `_repair_json` strips the trailing space, so
repair is not a no-op on every valid input. -/
theorem c6_counterexample :
    loadsL ("\x7b\x7d ".data) = some (.jobj []) ∧
    repairL ("\x7b\x7d ".data) ≠ "\x7b\x7d ".data := by
  constructor
  · rfl
  · decide

/-- C6 (amended): repair is a no-op on valid input without trailing
whitespace — if a string parses as JSON and is unchanged by `rstrip`,
then `_repair_json` returns it unchanged. -/
theorem c6_repair_noop (s : List Char) (v : JVal)
    (hload : loadsL s = some v) (hrs : rstripL s = s) :
    repairL s = s := by
  simp only [loadsL] at hload
  split at hload
  · rename_i v0 rest heq
    split at hload
    · rename_i hrest
      obtain ⟨pre, hpre, hvp⟩ := (parse_sound (parseFuel s)).1 _ _ _ heq
      obtain ⟨hpne, -, hclast, hneu, -, -⟩ := hvp
      obtain ⟨cl, hcl, hclw, hclc⟩ := hclast
      rw [skipWs] at hrest
      have hallrest := List.dropWhile_eq_nil_iff.mp hrest
      have hrestnil : rest = [] := by
        by_contra hne
        obtain ⟨x, hx, hxm⟩ := getLastq_exists_mem rest hne
        have hlast : s.getLast? = some x := by
          conv_lhs => rw [skipWs_decomp s, hpre]
          rw [List.getLast?_append, List.getLast?_append, hx]
          rfl
        exact rstrip_ne s x hlast (hallrest x hxm) hrs
      subst hrestnil
      have hsdec : s = s.takeWhile Char.isWhitespace ++ pre := by
        conv_lhs => rw [skipWs_decomp s, hpre]
        rw [List.append_nil]
      have hfold : repFold ⟨false, false, 0, 0⟩ s = ⟨false, false, 0, 0⟩ := by
        conv_lhs => rw [hsdec]
        rw [repFold_append,
          repFold_inert _
            (fun c hc => ws_inertR c (List.mem_takeWhile_imp hc)) 0 0,
          hneu.2.2.2.2 0 0]
      have hlastp : s.getLast? = some cl := by
        conv_lhs => rw [hsdec]
        rw [List.getLast?_append, hcl]
        rfl
      simp only [repairL]
      rw [hfold,
        if_neg (by decide : ¬ ((⟨false, false, 0, 0⟩ : RepSt).inStr = true)),
        hrs, hlastp,
        if_neg (fun hcon => hclc (Option.some.inj hcon))]
      simp
    · exact absurd hload (by simp)
  · exact absurd hload (by simp)

theorem c6_repair_noop_witness :
    loadsL ("\x7b\x7d".data) = some (.jobj []) ∧
    rstripL ("\x7b\x7d".data) = "\x7b\x7d".data ∧
    repairL ("\x7b\x7d".data) = "\x7b\x7d".data :=
  ⟨rfl, by decide, c6_repair_noop _ (.jobj []) rfl (by decide)⟩

theorem findSub_bt3 (A rest : List Char) (hA : ∀ c ∈ A, c ≠ btick) :
    findSub bt3 (A ++ (btick :: btick :: btick :: rest))
      = some A.length := by
  induction A with
  | nil =>
    rw [List.nil_append, findSub,
      if_pos (show bt3.isPrefixOf (btick :: btick :: btick :: rest) = true
        from List.isPrefixOf_iff_prefix.mpr ⟨rest, rfl⟩)]
    rfl
  | cons c A2 ih =>
    rw [List.cons_append, findSub, if_neg ?hnp]
    · rw [ih (fun x hx => hA x (by simp [hx]))]
      rfl
    case hnp =>
      intro hcon
      obtain ⟨t2, ht2⟩ := List.isPrefixOf_iff_prefix.mp hcon
      have hbt : btick = c := by
        have hhd := congrArg List.head? ht2
        simpa [bt3] using hhd
      exact hA c (by simp) hbt.symm

theorem findSub_single (x : Char) (A rest : List Char)
    (hA : ∀ c ∈ A, c ≠ x) :
    findSub [x] (A ++ (x :: rest)) = some A.length := by
  induction A with
  | nil =>
    rw [List.nil_append, findSub,
      if_pos (show List.isPrefixOf [x] (x :: rest) = true
        from List.isPrefixOf_iff_prefix.mpr ⟨rest, rfl⟩)]
    rfl
  | cons c A2 ih =>
    rw [List.cons_append, findSub, if_neg ?hnp]
    · rw [ih (fun y hy => hA y (by simp [hy]))]
      rfl
    case hnp =>
      intro hcon
      obtain ⟨t2, ht2⟩ := List.isPrefixOf_iff_prefix.mp hcon
      exact hA c (by simp) (List.cons.inj ht2).1.symm

theorem findSub_single_lb (x : Char) :
    ∀ (cs : List Char) (n i : Nat),
      (∀ c ∈ cs.take n, c ≠ x) → findSub [x] cs = some i → n ≤ i := by
  intro cs
  induction cs with
  | nil =>
    intro n i h hf
    rw [findSub, if_neg (by simp)] at hf
    exact absurd hf (by simp)
  | cons c t ih =>
    intro n i h hf
    match n with
    | 0 => exact Nat.zero_le i
    | m + 1 =>
      have hcx : c ≠ x := h c (by simp)
      rw [findSub, if_neg ?hnp] at hf
      case hnp =>
        intro hcon
        obtain ⟨t2, ht2⟩ := List.isPrefixOf_iff_prefix.mp hcon
        exact hcx (List.cons.inj ht2).1.symm
      rcases hj : findSub [x] t with _ | j
      · rw [hj] at hf
        exact absurd hf (by simp)
      · rw [hj] at hf
        simp only [Option.map_some'] at hf
        injection hf with hf
        have hm := ih m j (fun y hy => h y
          (by rw [List.take_succ_cons]; exact List.mem_cons_of_mem _ hy)) hj
        omega

theorem take_opener_free (p1 : List Char) (c0 y : Char) (X : List Char)
    (hp1 : ∀ c ∈ p1, c ≠ y) (hc0 : c0 ≠ y) :
    ∀ c ∈ (p1 ++ (c0 :: X)).take (p1.length + 1), c ≠ y := by
  intro c hc
  rw [List.take_append_eq_append_take] at hc
  rcases List.mem_append.mp hc with hc1 | hc2
  · exact hp1 c ((List.take_prefix _ _).subset hc1)
  · rw [show p1.length + 1 - p1.length = 1 from by omega] at hc2
    simp at hc2
    rw [hc2]
    exact hc0

theorem fixQuote_id (c : Char) (h : smartSafe c) : fixQuote c = c := by
  obtain ⟨h1, h2, h3, h4⟩ := h
  rw [fixQuote, if_neg h1, if_neg h2, if_neg h3, if_neg h4]

theorem map_fixQuote_id (cs : List Char) (h : ∀ c ∈ cs, smartSafe c) :
    cs.map fixQuote = cs := by
  induction cs with
  | nil => rfl
  | cons c t ih =>
    rw [List.map_cons, fixQuote_id c (h c (by simp)),
      ih (fun y hy => h y (by simp [hy]))]

theorem stripL_id (cs : List Char) (c0 cl : Char)
    (hh : cs.head? = some c0) (hw0 : ¬ c0.isWhitespace = true)
    (hl : cs.getLast? = some cl) (hwl : ¬ cl.isWhitespace = true) :
    stripL cs = cs := by
  rw [stripL]
  have hdrop : cs.dropWhile Char.isWhitespace = cs := by
    rcases cs with _ | ⟨c, t⟩
    · rfl
    · injection hh with hh0
      subst hh0
      rw [List.dropWhile_cons, if_neg hw0]
  rw [hdrop, rstripL]
  have hrevh : cs.reverse.head? = some cl := by rw [List.head?_reverse, hl]
  rcases hr : cs.reverse with _ | ⟨c1, t1⟩
  · rw [hr] at hrevh
    exact absurd hrevh (by simp)
  · rw [hr] at hrevh
    injection hrevh with h1
    subst h1
    rw [List.dropWhile_cons, if_neg hwl, ← hr, List.reverse_reverse]

theorem parseExact_valPre (inner : List Char) (v : JVal)
    (hpx : parseExact inner = some v) : ValPre inner := by
  rw [parseExact] at hpx
  split at hpx
  · rename_i v0 heq
    obtain ⟨pre, hpre, hv⟩ := (parse_sound (parseFuel inner)).1 _ _ _ heq
    rw [List.append_nil] at hpre
    rw [hpre]
    exact hv
  · exact absurd hpx (by simp)

theorem loadsL_of_parseExact (inner : List Char) (v : JVal) (c : Char)
    (hp : parseExact inner = some v) (hh : inner.head? = some c)
    (hcw : ¬ c.isWhitespace = true) : loadsL inner = some v := by
  rw [loadsL]
  have hskip : skipWs inner = inner := by
    rcases inner with _ | ⟨c0, t⟩
    · rfl
    · injection hh with h0
      subst h0
      rw [skipWs, List.dropWhile_cons, if_neg hcw]
  rw [hskip]
  rw [parseExact] at hp
  split at hp
  · rename_i v0 heq
    rw [heq]
    show (if skipWs ([] : List Char) = [] then some v0 else none) = some v
    rw [if_pos (show skipWs ([] : List Char) = [] from rfl)]
    exact hp
  · exact absurd hp (by simp)

theorem ejFrom_obj (it p2 : List Char) (v : JVal)
    (hvp : ValPre (lbr :: it)) (hld : loadsL (lbr :: it) = some v) :
    ejFrom lbr rbr ((lbr :: it) ++ p2) = some v := by
  have hbrk := hvp.2.2.2.2.1 rfl p2
  rw [ejFrom, hbrk]
  show loadsOrRepair (((lbr :: it) ++ p2).take ((lbr :: it).length - 1 + 1))
    = some v
  rw [show (lbr :: it).length - 1 + 1 = (lbr :: it).length from by
      rw [List.length_cons]; omega,
    List.take_left, loadsOrRepair, hld]
  rfl

theorem ejFrom_arr (it p2 : List Char) (v : JVal)
    (hvp : ValPre (lbk :: it)) (hld : loadsL (lbk :: it) = some v) :
    ejFrom lbk rbk ((lbk :: it) ++ p2) = some v := by
  have hbrk := hvp.2.2.2.2.2 rfl p2
  rw [ejFrom, hbrk]
  show loadsOrRepair (((lbk :: it) ++ p2).take ((lbk :: it).length - 1 + 1))
    = some v
  rw [show (lbk :: it).length - 1 + 1 = (lbk :: it).length from by
      rw [List.length_cons]; omega,
    List.take_left, loadsOrRepair, hld]
  rfl

set_option maxHeartbeats 1000000 in
/-- Resolution of the `_ej` scan when the extracted text decomposes as
opener-free prose followed by an object value and arbitrary suffix. -/
theorem ejCore_obj (cs0 p1 it p2 : List Char) (v : JVal)
    (hall : cs0.all Char.isWhitespace = false)
    (hmap : cs0.map fixQuote = cs0)
    (hfe : fenceExtract cs0 = p1 ++ ((lbr :: it) ++ p2))
    (hp1 : ∀ c ∈ p1, c ≠ lbr ∧ c ≠ lbk)
    (hvp : ValPre (lbr :: it))
    (hld : loadsL (lbr :: it) = some v) :
    ejCore cs0 = some v := by
  simp only [ejCore, hall, Bool.false_eq_true, if_false, hmap, hfe]
  rw [show (p1 ++ ((lbr :: it) ++ p2) : List Char)
    = p1 ++ (lbr :: (it ++ p2)) from by rw [List.cons_append]]
  rw [findSub_single lbr p1 (it ++ p2) (fun c hc => (hp1 c hc).1)]
  rcases hfk : findSub [lbk] (p1 ++ (lbr :: (it ++ p2))) with _ | a2
  · show ejFrom lbr rbr ((p1 ++ (lbr :: (it ++ p2))).drop p1.length) = some v
    rw [List.drop_left, ← List.cons_append]
    exact ejFrom_obj it p2 v hvp hld
  · have ha2 := findSub_single_lb lbk (p1 ++ (lbr :: (it ++ p2)))
      (p1.length + 1) a2
      (take_opener_free p1 lbr lbk (it ++ p2)
        (fun c hc => (hp1 c hc).2) (by decide)) hfk
    show (if p1.length < a2 then
        ejFrom lbr rbr ((p1 ++ (lbr :: (it ++ p2))).drop p1.length)
      else ejFrom lbk rbk ((p1 ++ (lbr :: (it ++ p2))).drop a2)) = some v
    rw [if_pos (by omega), List.drop_left, ← List.cons_append]
    exact ejFrom_obj it p2 v hvp hld

set_option maxHeartbeats 1000000 in
/-- Resolution of the `_ej` scan when the extracted text decomposes as
opener-free prose followed by an array value and arbitrary suffix. -/
theorem ejCore_arr (cs0 p1 it p2 : List Char) (v : JVal)
    (hall : cs0.all Char.isWhitespace = false)
    (hmap : cs0.map fixQuote = cs0)
    (hfe : fenceExtract cs0 = p1 ++ ((lbk :: it) ++ p2))
    (hp1 : ∀ c ∈ p1, c ≠ lbr ∧ c ≠ lbk)
    (hvp : ValPre (lbk :: it))
    (hld : loadsL (lbk :: it) = some v) :
    ejCore cs0 = some v := by
  simp only [ejCore, hall, Bool.false_eq_true, if_false, hmap, hfe]
  rw [show (p1 ++ ((lbk :: it) ++ p2) : List Char)
    = p1 ++ (lbk :: (it ++ p2)) from by rw [List.cons_append]]
  rw [findSub_single lbk p1 (it ++ p2) (fun c hc => (hp1 c hc).2)]
  rcases hfo : findSub [lbr] (p1 ++ (lbk :: (it ++ p2))) with _ | o
  · show ejFrom lbk rbk ((p1 ++ (lbk :: (it ++ p2))).drop p1.length) = some v
    rw [List.drop_left, ← List.cons_append]
    exact ejFrom_arr it p2 v hvp hld
  · have ho := findSub_single_lb lbr (p1 ++ (lbk :: (it ++ p2)))
      (p1.length + 1) o
      (take_opener_free p1 lbk lbr (it ++ p2)
        (fun c hc => (hp1 c hc).1) (by decide)) hfo
    show (if o < p1.length then
        ejFrom lbr rbr ((p1 ++ (lbk :: (it ++ p2))).drop o)
      else ejFrom lbk rbk ((p1 ++ (lbk :: (it ++ p2))).drop p1.length))
      = some v
    rw [if_neg (by omega), List.drop_left, ← List.cons_append]
    exact ejFrom_arr it p2 v hvp hld

set_option maxHeartbeats 1000000 in
/-- Computation of the fence-extraction step on a well-formed fenced text:
backtick-free prose, an opening fence optionally tagged `json`, the inner
text (starting with a non-letter, ending non-whitespace, backtick-free),
a closing fence, and arbitrary suffix. -/
theorem fenceExtract_fence (a0 tag inner b0 : List Char) (c0 cl : Char)
    (hh : inner.head? = some c0) (hc0j : c0 ≠ 'j')
    (hl : inner.getLast? = some cl) (hlw : ¬ cl.isWhitespace = true)
    (hhw : ¬ c0.isWhitespace = true)
    (htag : tag = [] ∨ tag = ['j', 's', 'o', 'n'])
    (ha0 : ∀ c ∈ a0, c ≠ btick) (hinn : ∀ c ∈ inner, c ≠ btick) :
    fenceExtract (a0 ++ (btick :: btick :: btick ::
      (tag ++ (inner ++ (btick :: btick :: btick :: b0))))) = inner := by
  rcases inner with _ | ⟨ci, it⟩
  · exact absurd hh (by simp)
  injection hh with hci
  subst hci
  have hfsub1 := findSub_bt3 a0 (tag ++ ((ci :: it) ++
    (btick :: btick :: btick :: b0))) ha0
  have hdrop3 : (a0 ++ (btick :: btick :: btick ::
      (tag ++ ((ci :: it) ++ (btick :: btick :: btick :: b0))))).drop
      (a0.length + 3)
      = tag ++ ((ci :: it) ++ (btick :: btick :: btick :: b0)) := by
    rw [List.drop_append_eq_append_drop,
      List.drop_eq_nil_of_le (by omega), List.nil_append,
      show a0.length + 3 - a0.length = 3 from by omega]
    rfl
  have hstr : stripL (ci :: it) = ci :: it :=
    stripL_id _ ci cl rfl hhw hl hlw
  rw [fenceExtract, hfsub1]
  simp only [hdrop3]
  rcases htag with rfl | rfl
  · rw [List.nil_append]
    have hnp : List.isPrefixOf ['j', 's', 'o', 'n']
        ((ci :: it) ++ (btick :: btick :: btick :: b0)) = false := by
      cases hb : List.isPrefixOf ['j', 's', 'o', 'n']
          ((ci :: it) ++ (btick :: btick :: btick :: b0))
      · rfl
      · obtain ⟨t2, ht2⟩ := List.isPrefixOf_iff_prefix.mp hb
        rw [show (['j', 's', 'o', 'n'] : List Char) ++ t2
          = 'j' :: (['s', 'o', 'n'] ++ t2) from rfl,
          List.cons_append] at ht2
        injection ht2 with h1 _
        exact absurd h1.symm hc0j
    rw [hnp, if_neg (show ¬ (false = true) from by simp)]
    rw [findSub_bt3 (ci :: it) b0 hinn]
    show stripL (((ci :: it) ++ (btick :: btick :: btick :: b0)).take
      (ci :: it).length) = ci :: it
    rw [List.take_left, hstr]
  · have hyes : List.isPrefixOf ['j', 's', 'o', 'n']
        (['j', 's', 'o', 'n'] ++
          ((ci :: it) ++ (btick :: btick :: btick :: b0))) = true :=
      List.isPrefixOf_iff_prefix.mpr ⟨_, rfl⟩
    rw [hyes, if_pos rfl]
    rw [show ((['j', 's', 'o', 'n'] : List Char) ++
        ((ci :: it) ++ (btick :: btick :: btick :: b0))).drop 4
      = (ci :: it) ++ (btick :: btick :: btick :: b0) from rfl]
    rw [findSub_bt3 (ci :: it) b0 hinn]
    show stripL (((ci :: it) ++ (btick :: btick :: btick :: b0)).take
      (ci :: it).length) = ci :: it
    rw [List.take_left, hstr]

/-- C1 counterexample: the text `use \x7bbraces\x7d then [1, 2] end`
contains the syntactically complete JSON array `[1, 2]` surrounded by
prose, yet `_ej` raises (returns no value), because the scan starts at the
first `\x7b` of the prose word and the text cut there does not parse or
repair. -/
theorem c1_counterexample :
    ejCore "use \x7bbraces\x7d then [1, 2] end".data = none ∧
    parseExact "[1, 2]".data
      = some (.jarr [.jnum "1", .jnum "2"]) := by
  constructor
  · rfl
  · rfl

set_option maxHeartbeats 1000000 in
/-- C1 (amended): `_ej` recovers the value of a complete JSON object or
array embedded in prose under the conditions the code actually needs:
no smart quotes anywhere, and either (no-fence case) no triple backtick
anywhere and no `\x7b`/`[` in the prose before the value, or (fence case)
the value exactly fills a triple-backtick fence (optionally tagged
`json`) with no backtick in the preceding prose or in the value. -/
theorem c1_extract_json :
    (∀ (p1 inner p2 : List Char) (v : JVal),
      parseExact inner = some v →
      (inner.head? = some lbr ∨ inner.head? = some lbk) →
      (∀ c ∈ p1 ++ (inner ++ p2), smartSafe c) →
      findSub bt3 (p1 ++ (inner ++ p2)) = none →
      (∀ c ∈ p1, c ≠ lbr ∧ c ≠ lbk) →
      ejCore (p1 ++ (inner ++ p2)) = some v) ∧
    (∀ (a0 tag inner b0 : List Char) (v : JVal),
      parseExact inner = some v →
      (inner.head? = some lbr ∨ inner.head? = some lbk) →
      (tag = [] ∨ tag = ['j', 's', 'o', 'n']) →
      (∀ c ∈ a0 ++ (bt3 ++ (tag ++ (inner ++ (bt3 ++ b0)))), smartSafe c) →
      (∀ c ∈ a0, c ≠ btick) →
      (∀ c ∈ inner, c ≠ btick) →
      ejCore (a0 ++ (bt3 ++ (tag ++ (inner ++ (bt3 ++ b0))))) = some v) := by
  constructor
  · intro p1 inner p2 v hpx hhead hsmart hnf hp1
    have hvp := parseExact_valPre inner v hpx
    have hfe : fenceExtract (p1 ++ (inner ++ p2)) = p1 ++ (inner ++ p2) := by
      rw [fenceExtract, hnf]
    rcases hhead with hh | hh
    · rcases inner with _ | ⟨ci, it⟩
      · exact absurd hh (by simp)
      injection hh with hci
      subst hci
      refine ejCore_obj _ p1 it p2 v ?_ (map_fixQuote_id _ hsmart) hfe hp1
        hvp (loadsL_of_parseExact _ _ lbr hpx rfl (by decide))
      cases hb : (p1 ++ ((lbr :: it) ++ p2)).all Char.isWhitespace
      · rfl
      · have hmem := List.all_eq_true.mp hb lbr (by simp)
        exact absurd hmem (by decide)
    · rcases inner with _ | ⟨ci, it⟩
      · exact absurd hh (by simp)
      injection hh with hci
      subst hci
      refine ejCore_arr _ p1 it p2 v ?_ (map_fixQuote_id _ hsmart) hfe hp1
        hvp (loadsL_of_parseExact _ _ lbk hpx rfl (by decide))
      cases hb : (p1 ++ ((lbk :: it) ++ p2)).all Char.isWhitespace
      · rfl
      · have hmem := List.all_eq_true.mp hb lbk (by simp)
        exact absurd hmem (by decide)
  · intro a0 tag inner b0 v hpx hhead htag hsmart ha0 hinn
    have hvp := parseExact_valPre inner v hpx
    obtain ⟨cl, hcl, hclw, hclc⟩ := hvp.2.2.1
    show ejCore (a0 ++ (btick :: btick :: btick ::
      (tag ++ (inner ++ (btick :: btick :: btick :: b0))))) = some v
    rcases hhead with hh | hh
    · have hfe := fenceExtract_fence a0 tag inner b0 lbr cl hh (by decide)
        hcl hclw (by decide) htag ha0 hinn
      rcases inner with _ | ⟨ci, it⟩
      · exact absurd hh (by simp)
      injection hh with hci
      subst hci
      refine ejCore_obj _ [] it [] v ?_ (map_fixQuote_id _ hsmart) ?_
        (by simp) hvp (loadsL_of_parseExact _ _ lbr hpx rfl (by decide))
      · cases hb : ((a0 ++ (btick :: btick :: btick ::
            (tag ++ ((lbr :: it) ++ (btick :: btick :: btick :: b0))))).all
            Char.isWhitespace)
        · rfl
        · have hmem := List.all_eq_true.mp hb btick (by simp)
          exact absurd hmem (by decide)
      · rw [hfe]
        simp
    · have hfe := fenceExtract_fence a0 tag inner b0 lbk cl hh (by decide)
        hcl hclw (by decide) htag ha0 hinn
      rcases inner with _ | ⟨ci, it⟩
      · exact absurd hh (by simp)
      injection hh with hci
      subst hci
      refine ejCore_arr _ [] it [] v ?_ (map_fixQuote_id _ hsmart) ?_
        (by simp) hvp (loadsL_of_parseExact _ _ lbk hpx rfl (by decide))
      · cases hb : ((a0 ++ (btick :: btick :: btick ::
            (tag ++ ((lbk :: it) ++ (btick :: btick :: btick :: b0))))).all
            Char.isWhitespace)
        · rfl
        · have hmem := List.all_eq_true.mp hb btick (by simp)
          exact absurd hmem (by decide)
      · rw [hfe]
        simp

theorem smartSafe_forall (l : List Char)
    (h : ∀ c ∈ l, c ≠ Char.ofNat 0x201C ∧ c ≠ Char.ofNat 0x201D ∧
      c ≠ Char.ofNat 0x2018 ∧ c ≠ Char.ofNat 0x2019) :
    ∀ c ∈ l, smartSafe c := h

set_option maxRecDepth 4000 in
theorem c1_extract_json_witness :
    ejCore ("see ".data ++ ("[1,2]".data ++ " done".data))
      = some (.jarr [.jnum "1", .jnum "2"]) ∧
    ejCore ("ok ".data ++ (bt3 ++ (['j', 's', 'o', 'n'] ++
        ("[1,2]".data ++ (bt3 ++ " x".data)))))
      = some (.jarr [.jnum "1", .jnum "2"]) := by
  constructor
  · exact c1_extract_json.1 "see ".data "[1,2]".data " done".data
      (.jarr [.jnum "1", .jnum "2"]) rfl (Or.inr rfl)
      (smartSafe_forall _ (by decide)) (by decide) (by decide)
  · exact c1_extract_json.2 "ok ".data ['j', 's', 'o', 'n'] "[1,2]".data
      " x".data (.jarr [.jnum "1", .jnum "2"]) rfl (Or.inr rfl)
      (Or.inr rfl) (smartSafe_forall _ (by decide)) (by decide) (by decide)
